import Mathlib

/-!
# Verification of the agent-colony simulation core

Shallow embedding of the repository's core (grid map generation, visibility,
A* pathfinding, robot behaviour, station economy) together with proofs and
refutations of the specification's claims.

Conventions of the embedding:
* `usize`/`u32` counters are modelled as `ℕ` (no value here can meaningfully
  overflow a 64/32-bit machine word in the claims under study);
* `f32` arithmetic in the spawn policy is modelled exactly over `ℚ`;
* the `rand::thread_rng` draws are modelled by an explicit stream of naturals
  (`List ℕ`), one entry per `gen_range` call, consumed left to right;
* the Perlin-noise sample test `perlin.get([x*0.15, y*0.15]) > 0.2` — a pure
  function of the seed — is modelled by an oracle parameter `ℕ → ℕ → Bool`;
* Rust `Vec<Vec<_>>` grids indexed `cells[y][x]` become `List (List _)`.
-/

namespace Ereea

/-- `CellType` from `environment/map.rs`. -/
inductive CellType where
  | Empty
  | Obstacle
  | Energy
  | Mineral
  | ScientificSite
deriving DecidableEq, Repr

/-- `MapConfig` from `environment/map.rs`. -/
structure MapConfig where
  width : ℕ
  height : ℕ
  seed : ℕ
deriving DecidableEq, Repr

/-- `Map` from `environment/map.rs` (the `cells` grid; the `visibility` grid
used by `simulation/mod.rs` is absent from that file and is modelled
separately below). -/
structure Map where
  config : MapConfig
  cells : List (List CellType)
deriving DecidableEq, Repr

/-- Read `cells[y][x]`; out-of-range reads (which would panic in Rust and are
always guarded in the source) default to `Empty`. -/
def Map.cell (m : Map) (x y : ℕ) : CellType :=
  (m.cells.getD y []).getD x CellType.Empty

/-- Write `cells[y][x] = v`. -/
def Map.setCell (m : Map) (x y : ℕ) (v : CellType) : Map :=
  { m with cells := m.cells.set y ((m.cells.getD y []).set x v) }

/-- `Map::is_walkable` from `environment/map.rs`. -/
def Map.is_walkable (m : Map) (x y : ℕ) : Bool :=
  if x ≥ m.config.width ∨ y ≥ m.config.height then false
  else m.cell x y ≠ CellType.Obstacle

/-- `RobotModule` from `robot/mod.rs`. -/
inductive RobotModule where
  | Exploration
  | Drill
  | EnergyCollector
deriving DecidableEq, Repr

/-- `Robot` from `robot/mod.rs`. -/
structure Robot where
  id : ℕ
  x : ℕ
  y : ℕ
  modules : List RobotModule
  has_data_to_share : Bool
  carried_energy : ℕ
  carried_minerals : ℕ
  carried_scientific_data : ℕ
deriving DecidableEq, Repr

/-- `Robot::new` from `robot/mod.rs`. -/
def Robot.new (id x y : ℕ) (modules : List RobotModule) : Robot :=
  { id := id, x := x, y := y, modules := modules, has_data_to_share := false
    carried_energy := 0, carried_minerals := 0, carried_scientific_data := 0 }

/-- `Station` from `station/mod.rs`. -/
structure Station where
  energy_storage : ℕ
  minerals_storage : ℕ
  scientific_data_count : ℕ
  robot_counter : ℕ
  explorer_count : ℕ
  driller_count : ℕ
  energy_collector_count : ℕ
deriving DecidableEq, Repr

/-- `Station::new` from `station/mod.rs`. -/
def Station.new : Station :=
  { energy_storage := 0, minerals_storage := 0, scientific_data_count := 0
    robot_counter := 5, explorer_count := 2, driller_count := 2
    energy_collector_count := 1 }

/-- `Station::add_energy`. -/
def Station.add_energy (s : Station) (amount : ℕ) : Station :=
  { s with energy_storage := s.energy_storage + amount }

/-- `Station::add_minerals`. -/
def Station.add_minerals (s : Station) (amount : ℕ) : Station :=
  { s with minerals_storage := s.minerals_storage + amount }

/-- `Station::add_scientific_data`. -/
def Station.add_scientific_data (s : Station) (amount : ℕ) : Station :=
  { s with scientific_data_count := s.scientific_data_count + amount }

/-- `Station::update_robot_counts`. -/
def Station.update_robot_counts (s : Station) (robot_type : RobotModule) : Station :=
  match robot_type with
  | RobotModule.Exploration => { s with explorer_count := s.explorer_count + 1 }
  | RobotModule.Drill => { s with driller_count := s.driller_count + 1 }
  | RobotModule.EnergyCollector =>
      { s with energy_collector_count := s.energy_collector_count + 1 }

/-- The resource-adjusted deficit of one capability, as computed inside
`Station::determine_next_robot_type` (`f32` modelled exactly over `ℚ`). -/
def Station.adjustedDeficit (s : Station) (m : RobotModule) : ℚ :=
  let total : ℚ := (s.explorer_count + s.driller_count + s.energy_collector_count : ℕ)
  match m with
  | RobotModule.Exploration =>
      let d : ℚ := (4 : ℚ)/10 - (s.explorer_count : ℚ) / total
      if s.scientific_data_count < 5 then d + 2/10 else d
  | RobotModule.Drill =>
      let d : ℚ := (3 : ℚ)/10 - (s.driller_count : ℚ) / total
      if s.minerals_storage < 5 then d + 2/10 else d
  | RobotModule.EnergyCollector =>
      let d : ℚ := (3 : ℚ)/10 - (s.energy_collector_count : ℚ) / total
      if s.energy_storage < 5 then d + 2/10 else d

/-- `Station::determine_next_robot_type` from `station/mod.rs`: the branching
on the three resource-adjusted deficits, verbatim. -/
def Station.determine_next_robot_type (s : Station) : RobotModule :=
  let rae := s.adjustedDeficit RobotModule.Exploration
  let rad := s.adjustedDeficit RobotModule.Drill
  let raen := s.adjustedDeficit RobotModule.EnergyCollector
  if rae > rad ∧ rae > raen then RobotModule.Exploration
  else if rad > raen then RobotModule.Drill
  else RobotModule.EnergyCollector

/-- `Station::get_center_x` from `station/mod.rs` (hardcoded `50 / 2`). -/
def Station.get_center_x (_s : Station) : ℕ := 50 / 2

/-- `Station::get_center_y` from `station/mod.rs` (hardcoded `30 / 2`). -/
def Station.get_center_y (_s : Station) : ℕ := 30 / 2

/-- `Station::try_create_robot` from `station/mod.rs`; the mutation of `self`
is made explicit by returning the new station alongside the optional robot. -/
def Station.try_create_robot (s : Station) : Option Robot × Station :=
  let min_resources_needed := 1
  if s.energy_storage ≥ min_resources_needed ∧
      s.minerals_storage ≥ min_resources_needed ∧
      s.scientific_data_count ≥ min_resources_needed then
    let robot_module := s.determine_next_robot_type
    let resource_cost := match robot_module with
      | RobotModule.Exploration => 1
      | RobotModule.Drill => 1
      | RobotModule.EnergyCollector => 1
    let s1 : Station := { s with
      energy_storage := s.energy_storage - resource_cost
      minerals_storage := s.minerals_storage - resource_cost
      scientific_data_count := s.scientific_data_count - resource_cost }
    let robot := Robot.new s1.robot_counter (s1.get_center_x) (s1.get_center_y)
      [robot_module]
    let s2 : Station := { s1 with robot_counter := s1.robot_counter + 1 }
    let s3 := s2.update_robot_counts robot_module
    (some robot, s3)
  else
    (none, s)

/-! ## Random-number stream

`rand::thread_rng()` draws are modelled by an explicit stream of naturals,
consumed one entry per `gen_range` call. Two executions of the program see
two (in general different) streams. -/

/-- Model of `rng.gen_range(0..n)`: reduce the next stream entry modulo `n`.
Returns the drawn value and the remaining stream. -/
def genRange (n : ℕ) (r : List ℕ) : ℕ × List ℕ :=
  (r.headD 0 % n, r.tail)

/-- Model of `rng.gen_range(-1..=1)`: the next stream entry reduced to
`{-1, 0, 1}`. -/
def genRangeDelta (r : List ℕ) : ℤ × List ℕ :=
  ((r.headD 0 % 3 : ℕ) - 1, r.tail)

/-! ## Path planner (`pathfinding.rs`) -/

/-- `manhattan_distance` from `pathfinding.rs` (`abs_diff` sums). -/
def manhattan_distance (a b : ℕ × ℕ) : ℕ :=
  Nat.dist a.1 b.1 + Nat.dist a.2 b.2

/-- `Node` from `pathfinding.rs`. Scores are naturals (the `i32` values are
always non-negative sums of unit steps and Manhattan distances). -/
structure Node where
  position : ℕ × ℕ
  f_score : ℕ
  g_score : ℕ
deriving DecidableEq, Repr

/-- `get_neighbors` from `pathfinding.rs`: in-bounds walkable cardinal
neighbors, in push order `(0,1),(1,0),(0,-1),(-1,0)`. -/
def get_neighbors (m : Map) (pos : ℕ × ℕ) : List (ℕ × ℕ) :=
  let directions : List (ℤ × ℤ) := [(0, 1), (1, 0), (0, -1), (-1, 0)]
  directions.foldl (fun acc d =>
    let new_x : ℤ := (pos.1 : ℤ) + d.1
    let new_y : ℤ := (pos.2 : ℤ) + d.2
    if 0 ≤ new_x ∧ new_x < (m.config.width : ℤ) ∧
        0 ≤ new_y ∧ new_y < (m.config.height : ℤ) then
      if m.is_walkable new_x.toNat new_y.toNat then
        acc ++ [(new_x.toNat, new_y.toNat)]
      else acc
    else acc) []

/-- Functional update of an optional-valued map (`HashMap::insert`). -/
def mapInsert {α β : Type} [DecidableEq α] (f : α → Option β) (k : α) (v : β) :
    α → Option β :=
  fun k' => if k' = k then some v else f k'

/-- Select a node of minimal `f_score` from `n :: ns` and return it with the
remaining nodes. Models `BinaryHeap::pop` (max of the reversed `Ord`, i.e. a
minimal `f_score`; the heap's choice among equal keys is unspecified and,
per the spec, irrelevant). -/
def selectMin (n : Node) : List Node → Node × List Node
  | [] => (n, [])
  | n' :: ns =>
    if n'.f_score < n.f_score then
      let r := selectMin n' ns
      (r.1, n :: r.2)
    else
      let r := selectMin n ns
      (r.1, n' :: r.2)

/-- `open_set.pop()`: `none` on the empty heap, else a minimal-`f_score`
node and the rest. -/
def heapPop : List Node → Option (Node × List Node)
  | [] => none
  | n :: ns => some (selectMin n ns)

/-- The search state of `find_path`: the open set and the three hash maps. -/
structure AState where
  open_set : List Node
  came_from : (ℕ × ℕ) → Option (ℕ × ℕ)
  g_scores : (ℕ × ℕ) → Option ℕ
  f_scores : (ℕ × ℕ) → Option ℕ

/-- The body of the `for neighbor in get_neighbors(...)` loop of
`find_path`: relax one neighbor of `cur`. (`g_scores[&current.position]` is
present whenever the loop runs; the `getD` default is never consulted.) -/
def relax (goal cur : ℕ × ℕ) (st : AState) (neighbor : ℕ × ℕ) : AState :=
  let tentative_g_score := (st.g_scores cur).getD 0 + 1
  let improve := match st.g_scores neighbor with
    | none => true
    | some gn => tentative_g_score < gn
  if improve then
    let f_score := tentative_g_score + manhattan_distance neighbor goal
    { open_set := st.open_set ++
        [{ position := neighbor, f_score := f_score, g_score := tentative_g_score }]
      came_from := mapInsert st.came_from neighbor cur
      g_scores := mapInsert st.g_scores neighbor tentative_g_score
      f_scores := mapInsert st.f_scores neighbor f_score }
  else st

/-- The `while let Some(prev) = came_from.get(&current)` chain of
`reconstruct_path`, before the final `reverse`: `[current, parent, ...]`.
Fuel-bounded; under the search invariant the chain is strictly
`g`-decreasing, hence shorter than any sufficient fuel. -/
def reconstructAux (cf : (ℕ × ℕ) → Option (ℕ × ℕ)) : ℕ → (ℕ × ℕ) → List (ℕ × ℕ)
  | 0, current => [current]
  | fuel + 1, current =>
    match cf current with
    | none => [current]
    | some prev => current :: reconstructAux cf fuel prev

/-- `reconstruct_path` from `pathfinding.rs`. -/
def reconstruct_path (cf : (ℕ × ℕ) → Option (ℕ × ℕ)) (fuel : ℕ)
    (current : ℕ × ℕ) : List (ℕ × ℕ) :=
  (reconstructAux cf fuel current).reverse

/-- The `while let Some(current) = open_set.pop()` loop of `find_path`,
fuel-bounded. The Rust loop terminates because every push strictly lowers a
recorded `g_score`; `find_path` below supplies fuel exceeding the measure
`5 * Σ g + |open|`, so the `0` branch is never reached from its states. -/
def astarLoop (m : Map) (goal : ℕ × ℕ) : ℕ → AState → Option (List (ℕ × ℕ))
  | 0, _ => none
  | fuel + 1, st =>
    match heapPop st.open_set with
    | none => none
    | some (current, rest) =>
      if current.position = goal then
        some (reconstruct_path st.came_from
          (m.config.width * m.config.height + 1) current.position)
      else
        let st' := (get_neighbors m current.position).foldl
          (relax goal current.position) { st with open_set := rest }
        astarLoop m goal fuel st'

/-- `find_path` from `pathfinding.rs`. -/
def find_path (m : Map) (start goal : ℕ × ℕ) : Option (List (ℕ × ℕ)) :=
  let h0 := manhattan_distance start goal
  let n := m.config.width * m.config.height
  let st0 : AState :=
    { open_set := [{ position := start, f_score := h0, g_score := 0 }]
      came_from := fun _ => none
      g_scores := fun p => if p = start then some 0 else none
      f_scores := fun p => if p = start then some h0 else none }
  astarLoop m goal (5 * n * n + 2) st0

/-! ## Robot behaviour (`robot/mod.rs`) -/

/-- Rust `isize::clamp(lo, hi)` (callers always have `lo ≤ hi`). -/
def clampZ (v lo hi : ℤ) : ℤ := min (max v lo) hi

/-- `Robot::should_return_to_base`. -/
def Robot.should_return_to_base (r : Robot) : Bool :=
  r.carried_energy > 0 ∨ r.carried_minerals > 0 ∨ r.carried_scientific_data > 0

/-- `Robot::is_near_base`: within Chebyshev distance 1 of `(cx, cy)`. -/
def Robot.is_near_base (r : Robot) (cx cy : ℕ) : Bool :=
  Nat.dist r.x cx ≤ 1 ∧ Nat.dist r.y cy ≤ 1

/-- `Robot::move_towards` from `robot/mod.rs`: one A* step, with the greedy
clamped fallback when no path exists. -/
def Robot.move_towards (r : Robot) (target_x target_y : ℕ) (m : Map) : Robot :=
  match find_path m (r.x, r.y) (target_x, target_y) with
  | some path =>
    if path.length > 1 then
      let next_pos := path.getD 1 (r.x, r.y)
      { r with x := next_pos.1, y := next_pos.2 }
    else r
  | none =>
    let dx : ℤ := if r.x < target_x then 1 else if r.x > target_x then -1 else 0
    let dy : ℤ := if r.y < target_y then 1 else if r.y > target_y then -1 else 0
    let new_x := (clampZ ((r.x : ℤ) + dx) 0 ((m.config.width : ℤ) - 1)).toNat
    let new_y := (clampZ ((r.y : ℤ) + dy) 0 ((m.config.height : ℤ) - 1)).toNat
    if m.is_walkable new_x new_y then { r with x := new_x, y := new_y } else r

/-- `Robot::random_move` from `robot/mod.rs`. The robot carries no
last-direction state; when not returning to base it draws `dx` then `dy`
fresh from the stream, clamps, and moves iff the target is walkable. -/
def Robot.random_move (r : Robot) (m : Map) (rng : List ℕ) : Robot × List ℕ :=
  let center_x := m.config.width / 2
  let center_y := m.config.height / 2
  if r.should_return_to_base then
    if ¬ r.is_near_base center_x center_y then
      (r.move_towards center_x center_y m, rng)
    else (r, rng)
  else
    let d1 := genRangeDelta rng
    let d2 := genRangeDelta d1.2
    let new_x := (clampZ ((r.x : ℤ) + d1.1) 0 ((m.config.width : ℤ) - 1)).toNat
    let new_y := (clampZ ((r.y : ℤ) + d2.1) 0 ((m.config.height : ℤ) - 1)).toNat
    if m.is_walkable new_x new_y then
      ({ r with x := new_x, y := new_y }, d2.2)
    else (r, d2.2)

/-- `Robot::try_gather_resource` from `robot/mod.rs`: returns the updated
robot, the updated map and the success flag. -/
def Robot.try_gather_resource (r : Robot) (m : Map) : Robot × Map × Bool :=
  if r.x ≥ m.config.width ∨ r.y ≥ m.config.height then (r, m, false)
  else
    match m.cell r.x r.y with
    | CellType.Energy =>
      if RobotModule.EnergyCollector ∈ r.modules then
        ({ r with carried_energy := r.carried_energy + 1 },
         m.setCell r.x r.y CellType.Empty, true)
      else (r, m, false)
    | CellType.Mineral =>
      if RobotModule.Drill ∈ r.modules then
        ({ r with carried_minerals := r.carried_minerals + 1 },
         m.setCell r.x r.y CellType.Empty, true)
      else (r, m, false)
    | CellType.ScientificSite =>
      if RobotModule.Exploration ∈ r.modules then
        ({ r with carried_scientific_data := r.carried_scientific_data + 1 },
         m, true)
      else (r, m, false)
    | _ => (r, m, false)

/-- `Robot::try_deposit_resources` from `robot/mod.rs`. -/
def Robot.try_deposit_resources (r : Robot) (station : Station) (m : Map) :
    Robot × Station :=
  let center_x := m.config.width / 2
  let center_y := m.config.height / 2
  if r.is_near_base center_x center_y then
    let s1 := if r.carried_energy > 0 then station.add_energy r.carried_energy
      else station
    let r1 := if r.carried_energy > 0 then { r with carried_energy := 0 } else r
    let s2 := if r1.carried_minerals > 0 then s1.add_minerals r1.carried_minerals
      else s1
    let r2 := if r1.carried_minerals > 0 then { r1 with carried_minerals := 0 }
      else r1
    let s3 := if r2.carried_scientific_data > 0 then
        s2.add_scientific_data r2.carried_scientific_data
      else s2
    let r3 := if r2.carried_scientific_data > 0 then
        { r2 with carried_scientific_data := 0 }
      else r2
    let r4 := if r3.has_data_to_share then { r3 with has_data_to_share := false }
      else r3
    (r4, s3)
  else (r, station)

/-! ## Visibility (fog of war)

`simulation/mod.rs` and the UI use `Map::fade_visibility`,
`Map::update_visibility` and a `visibility : Vec<Vec<CellVisibility>>` field
of `Map`, but `environment/map.rs` as present in the repository defines none
of them, so they are modelled from the spec below. -/

/-- Modelled from the spec: the `CellVisibility` enum of
`environment/map.rs` (absent from the file present in the repository) —
"one of {Hidden, Visible, Explored}". -/
inductive CellVisibility where
  | Hidden
  | Visible
  | Explored
deriving DecidableEq, Repr

/-- Modelled from the spec: the per-cell visibility grid owned by the Grid
Map, represented by dimensions and a cell function. -/
structure Visibility where
  width : ℕ
  height : ℕ
  vis : ℕ → ℕ → CellVisibility

/-- Modelled from the spec: `update_visibility(cx, cy, radius)` — "for every
cell within the bounding box `[cx-radius, cx+radius] × [cy-radius, cy+radius]`
intersected with map bounds, disclose it Visible if its Euclidean distance to
`(cx,cy)` is ≤ radius" (a cell with Euclidean distance ≤ radius lies in that
bounding box, so the box is just an iteration bound). -/
def Visibility.update_visibility (v : Visibility) (cx cy radius : ℕ) : Visibility :=
  { v with vis := fun x y =>
      if x < v.width ∧ y < v.height ∧
          Nat.dist x cx ^ 2 + Nat.dist y cy ^ 2 ≤ radius ^ 2 then
        CellVisibility.Visible
      else v.vis x y }

/-- Modelled from the spec: `fade_visibility()` — "every currently-Visible
cell becomes Explored; Hidden and already-Explored cells are untouched". -/
def Visibility.fade_visibility (v : Visibility) : Visibility :=
  { v with vis := fun x y =>
      if v.vis x y = CellVisibility.Visible then CellVisibility.Explored
      else v.vis x y }

/-- A visibility operation of the kind quantified over by the spec's
monotonicity property. -/
inductive VisOp where
  | fade
  | update (cx cy radius : ℕ)

/-- Apply one visibility operation. -/
def VisOp.apply (op : VisOp) (v : Visibility) : Visibility :=
  match op with
  | VisOp.fade => v.fade_visibility
  | VisOp.update cx cy r => v.update_visibility cx cy r

/-- Apply a sequence of visibility operations, left to right. -/
def applyVisOps (ops : List VisOp) (v : Visibility) : Visibility :=
  ops.foldl (fun v op => op.apply v) v

/-! ## Terrain generation (`environment/map.rs`)

`Map::new` mixes two randomness sources: the seeded Perlin field (a pure
function of `config.seed`, abstracted here as the oracle `po x y`, standing
for `perlin.get([x*0.15, y*0.15]) > 0.2`) and `rand::thread_rng()` (the
explicit stream), which `ensure_traversable` and `place_resources` draw
from. -/

/-- `Map::count_obstacle_neighbors`: 8-neighborhood count, out-of-bounds
neighbors counted as obstacles. -/
def Map.count_obstacle_neighbors (m : Map) (x y : ℕ) : ℕ :=
  let deltas : List (ℤ × ℤ) :=
    [(-1, -1), (0, -1), (1, -1), (-1, 0), (1, 0), (-1, 1), (0, 1), (1, 1)]
  deltas.foldl (fun count d =>
    let nx : ℤ := (x : ℤ) + d.1
    let ny : ℤ := (y : ℤ) + d.2
    if 0 ≤ nx ∧ nx < (m.config.width : ℤ) ∧ 0 ≤ ny ∧ ny < (m.config.height : ℤ) then
      if m.cell nx.toNat ny.toNat = CellType.Obstacle then count + 1 else count
    else count + 1) 0

/-- One round of the cellular-automata smoothing in `generate_terrain`: all
cells update simultaneously from the previous round's grid. -/
def Map.caStep (m : Map) : Map :=
  { m with cells := (List.range m.config.height).map fun y =>
      (List.range m.config.width).map fun x =>
        let neighbors := m.count_obstacle_neighbors x y
        if m.cell x y = CellType.Obstacle then
          if neighbors ≥ 4 then CellType.Obstacle else CellType.Empty
        else
          if neighbors ≥ 5 then CellType.Obstacle else CellType.Empty }

/-- Iterate the cellular-automata smoothing. -/
def Map.caRounds : ℕ → Map → Map
  | 0, m => m
  | n + 1, m => Map.caRounds n m.caStep

/-- The `for dy/dx` 3×3 clearing inside `create_path`. -/
def Map.clear3x3 (m : Map) (x y : ℕ) : Map :=
  let deltas : List (ℤ × ℤ) :=
    [(-1, -1), (0, -1), (1, -1), (-1, 0), (0, 0), (1, 0), (-1, 1), (0, 1), (1, 1)]
  deltas.foldl (fun m d =>
    let nx : ℤ := (x : ℤ) + d.1
    let ny : ℤ := (y : ℤ) + d.2
    if 0 ≤ nx ∧ nx < (m.config.width : ℤ) ∧ 0 ≤ ny ∧ ny < (m.config.height : ℤ) then
      m.setCell nx.toNat ny.toNat CellType.Empty
    else m) m

/-- The `while x != end_x || y != end_y` loop of `Map::create_path`: clear
the current cell, take one greedy step on each differing axis, clear the 3×3
block around the new position. Each iteration lowers the Chebyshev distance
to the target by one, so `width + height` fuel always suffices. -/
def Map.createPathLoop : ℕ → Map → ℕ → ℕ → ℕ → ℕ → Map
  | 0, m, _, _, _, _ => m
  | fuel + 1, m, x, y, end_x, end_y =>
    if x = end_x ∧ y = end_y then m
    else
      let m1 := m.setCell x y CellType.Empty
      let x' := if x < end_x then x + 1 else if x > end_x then x - 1 else x
      let y' := if y < end_y then y + 1 else if y > end_y then y - 1 else y
      let m2 := m1.clear3x3 x' y'
      Map.createPathLoop fuel m2 x' y' end_x end_y

/-- `Map::create_path`. -/
def Map.create_path (m : Map) (start_x start_y end_x end_y : ℕ) : Map :=
  Map.createPathLoop (m.config.width + m.config.height) m start_x start_y end_x end_y

/-- `Map::ensure_traversable`: carve 3 paths between `thread_rng` endpoints
(draw order `start_x, start_y, end_x, end_y` per path). -/
def Map.ensure_traversable (m : Map) (rng : List ℕ) : Map × List ℕ :=
  let step := fun (acc : Map × List ℕ) (_ : ℕ) =>
    let (sx, r1) := genRange acc.1.config.width acc.2
    let (sy, r2) := genRange acc.1.config.height r1
    let (ex, r3) := genRange acc.1.config.width r2
    let (ey, r4) := genRange acc.1.config.height r3
    (acc.1.create_path sx sy ex ey, r4)
  (List.range 3).foldl step (m, rng)

/-- `Map::generate_terrain`: Perlin pass (via the seed oracle), 4
cellular-automata rounds, then `ensure_traversable`. -/
def Map.generate_terrain (config : MapConfig) (po : ℕ → ℕ → Bool)
    (rng : List ℕ) : Map × List ℕ :=
  let m0 : Map :=
    { config := config
      cells := (List.range config.height).map fun y =>
        (List.range config.width).map fun x =>
          if po x y then CellType.Obstacle else CellType.Empty }
  Map.ensure_traversable (Map.caRounds 4 m0) rng

/-- `Map::clear_base_area`: clear the 3×3 block around the map center. -/
def Map.clear_base_area (m : Map) : Map :=
  let center_x := m.config.width / 2
  let center_y := m.config.height / 2
  let deltas : List (ℤ × ℤ) :=
    [(-1, -1), (0, -1), (1, -1), (-1, 0), (0, 0), (1, 0), (-1, 1), (0, 1), (1, 1)]
  deltas.foldl (fun m d =>
    let x := ((center_x : ℤ) + d.1).toNat
    let y := ((center_y : ℤ) + d.2).toNat
    if x < m.config.width ∧ y < m.config.height then
      m.setCell x y CellType.Empty
    else m) m

/-- The `is_valid_position` closure of `place_resources`. -/
def Map.is_valid_position (m : Map) (x y : ℕ) : Bool :=
  let center_x := m.config.width / 2
  let center_y := m.config.height / 2
  let dx := Nat.dist x center_x
  let dy := Nat.dist y center_y
  if dx ≤ 1 ∧ dy ≤ 1 then false
  else m.cell x y = CellType.Empty

/-- One resource item: up to 10 `thread_rng` position retries (draw order
`x` then `y`), placing on the first valid Empty cell, else silently
skipping. -/
def Map.placeOne (ct : CellType) : ℕ → Map → List ℕ → Map × List ℕ
  | 0, m, rng => (m, rng)
  | tries + 1, m, rng =>
    let (x, r1) := genRange m.config.width rng
    let (y, r2) := genRange m.config.height r1
    if m.is_valid_position x y then (m.setCell x y ct, r2)
    else Map.placeOne ct tries m r2

/-- Place `count` items of one resource type. -/
def Map.placeMany (ct : CellType) : ℕ → Map → List ℕ → Map × List ℕ
  | 0, m, rng => (m, rng)
  | n + 1, m, rng =>
    let (m1, r1) := Map.placeOne ct 10 m rng
    Map.placeMany ct n m1 r1

/-- `Map::place_resources`: 20 Energy, then 20 Mineral, then 5
ScientificSite attempts. -/
def Map.place_resources (m : Map) (rng : List ℕ) : Map × List ℕ :=
  let (m1, r1) := Map.placeMany CellType.Energy 20 m rng
  let (m2, r2) := Map.placeMany CellType.Mineral 20 m1 r1
  Map.placeMany CellType.ScientificSite 5 m2 r2

/-- `Map::new` from `environment/map.rs`: terrain generation, base
clearing, resource placement. `po` abstracts the seeded Perlin test (a pure
function of `config.seed`); `rng` is the `thread_rng` stream, which is NOT
derived from the seed. -/
def Map.new (config : MapConfig) (po : ℕ → ℕ → Bool) (rng : List ℕ) : Map :=
  let p := Map.generate_terrain config po rng
  let m2 := p.1.clear_base_area
  (m2.place_resources p.2).1

/-! ## Specification-level definitions -/

/-- A walkable route as the spec describes one: nonempty, from `s` to `t`,
consecutive cells cardinally adjacent, every cell walkable. -/
def IsPathList (m : Map) (l : List (ℕ × ℕ)) (s t : ℕ × ℕ) : Prop :=
  l.head? = some s ∧ l.getLast? = some t ∧
  List.Chain' (fun a b => manhattan_distance a b = 1) l ∧
  ∀ p ∈ l, m.is_walkable p.1 p.2 = true

/-- A walkable route from `s` to `t` exists. -/
def Reachable (m : Map) (s t : ℕ × ℕ) : Prop :=
  ∃ l, IsPathList m l s t

/-- The spawn choice as the spec words it (refinement model, to compare
with `Station.determine_next_robot_type`): the largest resource-adjusted
deficit wins, ties broken by the fixed evaluation order Exploration, then
Drill, then EnergyCollector. -/
def specChoice (s : Station) : RobotModule :=
  let rae := s.adjustedDeficit RobotModule.Exploration
  let rad := s.adjustedDeficit RobotModule.Drill
  let raen := s.adjustedDeficit RobotModule.EnergyCollector
  if rae ≥ rad ∧ rae ≥ raen then RobotModule.Exploration
  else if rad ≥ raen then RobotModule.Drill
  else RobotModule.EnergyCollector

/-- `n` consecutive gather attempts by a robot standing still. -/
def gatherIter : ℕ → Robot → Map → Robot × Map
  | 0, r, m => (r, m)
  | n + 1, r, m =>
    let g := r.try_gather_resource m
    gatherIter n g.1 g.2.1

/-- The map center `(width / 2, height / 2)`. -/
def mapCenter (c : MapConfig) : ℕ × ℕ := (c.width / 2, c.height / 2)

/-! ## A* search invariant -/

/-- A recorded position is either still pending in the heap under a good
`f_score`, or all its neighbors have been relaxed at its current `g`. -/
def PendingAt (m : Map) (t : ℕ × ℕ) (st : AState) (p : ℕ × ℕ) : Prop :=
  ∀ gv, st.g_scores p = some gv →
    (∃ nd ∈ st.open_set, nd.position = p ∧
      nd.f_score ≤ gv + manhattan_distance p t) ∨
    (∀ q ∈ get_neighbors m p, ∃ gq ≤ gv + 1, st.g_scores q = some gq)

/-- The core state invariant of the `find_path` loop (for walkable start
`s` and goal `t`): recorded `g`-scores realize duplicate-free walkable
routes along which recorded scores are bounded by position; heap entries
carry `f = g_at_push + h` for their recorded position; the parent map links
adjacent recorded positions with strictly descending `g`; the goal, once
recorded, keeps a heap entry until popped. -/
structure AInvCore (m : Map) (s t : ℕ × ℕ) (st : AState) : Prop where
  gstart : st.g_scores s = some 0
  rec_wk : ∀ p v, st.g_scores p = some v → m.is_walkable p.1 p.2 = true
  gpath : ∀ p v, st.g_scores p = some v →
    ∃ l, IsPathList m l s p ∧ l.length = v + 1 ∧ l.Nodup ∧
      ∀ (i : ℕ) (hi : i < l.length), ∃ gv ≤ i, st.g_scores (l.get ⟨i, hi⟩) = some gv
  ent : ∀ nd ∈ st.open_set, ∃ gv, st.g_scores nd.position = some gv ∧
    gv ≤ nd.g_score ∧
    nd.f_score = nd.g_score + manhattan_distance nd.position t
  goalpending : ∀ gv, st.g_scores t = some gv → ∃ nd ∈ st.open_set, nd.position = t
  cfprop : ∀ p q, st.came_from p = some q → ∃ gp gq, st.g_scores p = some gp ∧
    st.g_scores q = some gq ∧ gq < gp ∧ manhattan_distance q p = 1
  cfstart : st.came_from s = none
  cfrec : ∀ p gp, st.g_scores p = some gp → p = s ∨ (st.came_from p).isSome

/-- The full loop invariant. -/
def AInv (m : Map) (s t : ℕ × ℕ) (st : AState) : Prop :=
  AInvCore m s t st ∧ ∀ p, PendingAt m t st p

/-- The invariant as it stands in the middle of relaxing the neighbors of
`cur` (whose own pending obligation is re-established once the relaxation
loop finishes). -/
def WeakInv (m : Map) (s t cur : ℕ × ℕ) (st : AState) : Prop :=
  AInvCore m s t st ∧ ∀ p, p ≠ cur → PendingAt m t st p

/-- Sum of the recorded `g`-scores over the grid, unrecorded cells counting
as `width * height`. Every heap push strictly lowers it. -/
def gsum (m : Map) (st : AState) : ℕ :=
  ∑ p ∈ Finset.range m.config.width ×ˢ Finset.range m.config.height,
    ((st.g_scores p).getD (m.config.width * m.config.height))

/-- The termination measure of the `find_path` loop. -/
def measureA (m : Map) (st : AState) : ℕ :=
  5 * gsum m st + st.open_set.length

/-! ## Concrete instances used by refutations and witnesses -/

/-- A station whose Drill and EnergyCollector adjusted deficits tie while
Exploration trails (3/1/1 robots, all storages at 5). -/
def tieStation : Station :=
  { energy_storage := 5, minerals_storage := 5, scientific_data_count := 5
    robot_counter := 5, explorer_count := 3, driller_count := 1
    energy_collector_count := 1 }

/-- A freshly initialized station holding exactly one unit of each
resource. -/
def lowStation : Station :=
  { Station.new with
    energy_storage := 1, minerals_storage := 1, scientific_data_count := 1 }

/-- A 2×1 map whose left cell (the start of the refuting `find_path` call)
is an obstacle. -/
def obstacleStartMap : Map :=
  { config := { width := 2, height := 1, seed := 0 }
    cells := [[CellType.Obstacle, CellType.Empty]] }

/-- 3×3 map, all walkable except the center. -/
def ringMap : Map :=
  { config := { width := 3, height := 3, seed := 0 }
    cells := [[CellType.Empty, CellType.Empty, CellType.Empty],
              [CellType.Empty, CellType.Obstacle, CellType.Empty],
              [CellType.Empty, CellType.Empty, CellType.Empty]] }

/-- A fully walkable 5×5 map. -/
def emptyMap5 : Map :=
  { config := { width := 5, height := 5, seed := 0 }
    cells := List.replicate 5 (List.replicate 5 CellType.Empty) }

/-- A Drill robot standing at (2,2) of a 5×5 map, carrying nothing (so its
next move takes the wandering branch). Its state is the same whatever its
previous movement delta was, since no such memory exists. -/
def wanderRobot : Robot := Robot.new 0 2 2 [RobotModule.Drill]

/-- A constant Perlin oracle (the noise field plays no role in the
determinism refutation). -/
def flatNoise : ℕ → ℕ → Bool := fun _ _ => false

/-- A small 5×5 configuration. -/
def smallConfig : MapConfig := { width := 5, height := 5, seed := 0 }

/-! ## Helper lemmas -/

/-- Closed form of `Station.try_create_robot`. -/
theorem try_create_robot_eq (s : Station) : s.try_create_robot =
    if 1 ≤ s.energy_storage ∧ 1 ≤ s.minerals_storage ∧ 1 ≤ s.scientific_data_count then
      (some (Robot.new s.robot_counter 25 15 [s.determine_next_robot_type]),
       ({ s with energy_storage := s.energy_storage - 1,
                 minerals_storage := s.minerals_storage - 1,
                 scientific_data_count := s.scientific_data_count - 1,
                 robot_counter := s.robot_counter + 1 } : Station).update_robot_counts
         s.determine_next_robot_type)
    else (none, s) := by
  rcases h : s.determine_next_robot_type with _ | _ | _ <;>
    simp only [Station.try_create_robot, Station.get_center_x, Station.get_center_y, h]

/-- `update_robot_counts` does not touch the resource counters. -/
theorem update_counts_preserves (s : Station) (mod : RobotModule) :
    (s.update_robot_counts mod).energy_storage = s.energy_storage ∧
    (s.update_robot_counts mod).minerals_storage = s.minerals_storage ∧
    (s.update_robot_counts mod).scientific_data_count = s.scientific_data_count := by
  cases mod <;> simp [Station.update_robot_counts]

/-- Closed form of `Station.determine_next_robot_type`. -/
theorem determine_eq (s : Station) : s.determine_next_robot_type =
    if s.adjustedDeficit RobotModule.Drill < s.adjustedDeficit RobotModule.Exploration ∧
        s.adjustedDeficit RobotModule.EnergyCollector <
          s.adjustedDeficit RobotModule.Exploration then
      RobotModule.Exploration
    else if s.adjustedDeficit RobotModule.EnergyCollector <
        s.adjustedDeficit RobotModule.Drill then
      RobotModule.Drill
    else RobotModule.EnergyCollector := rfl

/-- Writing one cell leaves every other cell unchanged. -/
theorem cell_setCell_ne (m : Map) (a b x y : ℕ) (v : CellType)
    (h : ¬ (x = a ∧ y = b)) : (m.setCell a b v).cell x y = m.cell x y := by
  unfold Map.setCell Map.cell
  simp only [List.getD_eq_getElem?_getD]
  by_cases hy : y = b
  · subst hy
    have hx : x ≠ a := fun hx => h ⟨hx, rfl⟩
    by_cases hlen : y < m.cells.length
    · rw [List.getElem?_set_self hlen]
      simp only [Option.getD_some]
      rw [List.getElem?_set_ne (fun he => hx he.symm)]
    · have h1 : (m.cells.set y ((m.cells[y]?.getD []).set a v))[y]? = none :=
        List.getElem?_eq_none (by simpa using le_of_not_lt hlen)
      rw [h1, List.getElem?_eq_none (le_of_not_lt hlen)]
  · rw [List.getElem?_set_ne (fun he => hy he.symm)]

/-- Writing an in-range cell stores the written value. -/
theorem cell_setCell_self (m : Map) (x y : ℕ) (v : CellType)
    (hy : y < m.cells.length) (hx : x < (m.cells.getD y []).length) :
    (m.setCell x y v).cell x y = v := by
  unfold Map.setCell Map.cell
  simp only [List.getD_eq_getElem?_getD]
  rw [List.getElem?_set_self hy]
  simp only [Option.getD_some]
  have hx' : x < (m.cells[y]?.getD []).length := by
    rwa [List.getD_eq_getElem?_getD] at hx
  rw [List.getElem?_set_self hx']
  rfl

/-- A cell holding a non-default value lies in range of the grid lists. -/
theorem cell_bounds (m : Map) {x y : ℕ} (h : m.cell x y ≠ CellType.Empty) :
    y < m.cells.length ∧ x < (m.cells.getD y []).length := by
  constructor
  · by_contra hy
    apply h
    have he : m.cells.getD y [] = [] := by
      rw [List.getD_eq_getElem?_getD, List.getElem?_eq_none (not_lt.mp hy)]
      rfl
    unfold Map.cell
    rw [he]
    rfl
  · by_contra hx
    apply h
    have he : (m.cells.getD y [])[x]? = none := List.getElem?_eq_none (not_lt.mp hx)
    unfold Map.cell
    rw [List.getD_eq_getElem?_getD (m.cells.getD y []) x CellType.Empty, he]
    rfl

/-- Clearing a cell that does not hold `ct` keeps every `ct` cell intact. -/
theorem setCell_keeps_cell_ne_value (m : Map) (a b : ℕ) (ct : CellType)
    (hab : m.cell a b ≠ ct) (x y : ℕ) (h : m.cell x y = ct) :
    (m.setCell a b CellType.Empty).cell x y = ct := by
  rw [cell_setCell_ne]
  · exact h
  · rintro ⟨hx, hy⟩
    subst hx
    subst hy
    exact hab h

/-- Equipped gathering on an in-bounds Energy cell. -/
theorem try_gather_energy (r : Robot) (m : Map)
    (h : ¬ (r.x ≥ m.config.width ∨ r.y ≥ m.config.height))
    (hc : m.cell r.x r.y = CellType.Energy)
    (hm : RobotModule.EnergyCollector ∈ r.modules) :
    r.try_gather_resource m =
      ({ r with carried_energy := r.carried_energy + 1 },
       m.setCell r.x r.y CellType.Empty, true) := by
  unfold Robot.try_gather_resource
  rw [if_neg h, hc, if_pos hm]

/-- Equipped gathering on an in-bounds Mineral cell. -/
theorem try_gather_mineral (r : Robot) (m : Map)
    (h : ¬ (r.x ≥ m.config.width ∨ r.y ≥ m.config.height))
    (hc : m.cell r.x r.y = CellType.Mineral)
    (hm : RobotModule.Drill ∈ r.modules) :
    r.try_gather_resource m =
      ({ r with carried_minerals := r.carried_minerals + 1 },
       m.setCell r.x r.y CellType.Empty, true) := by
  unfold Robot.try_gather_resource
  rw [if_neg h, hc, if_pos hm]

/-- Equipped gathering on an in-bounds ScientificSite cell: the map is
returned unchanged. -/
theorem try_gather_science (r : Robot) (m : Map)
    (h : ¬ (r.x ≥ m.config.width ∨ r.y ≥ m.config.height))
    (hc : m.cell r.x r.y = CellType.ScientificSite)
    (hm : RobotModule.Exploration ∈ r.modules) :
    r.try_gather_resource m =
      ({ r with carried_scientific_data := r.carried_scientific_data + 1 }, m, true) := by
  unfold Robot.try_gather_resource
  rw [if_neg h, hc, if_pos hm]

/-- Out-of-bounds gathering is a no-op. -/
theorem try_gather_out_of_bounds (r : Robot) (m : Map)
    (h : r.x ≥ m.config.width ∨ r.y ≥ m.config.height) :
    r.try_gather_resource m = (r, m, false) := by
  unfold Robot.try_gather_resource
  rw [if_pos h]

/-- Gathering without the matching capability (or on a non-resource cell)
is a no-op. -/
theorem try_gather_noop (r : Robot) (m : Map)
    (h : ¬ (r.x ≥ m.config.width ∨ r.y ≥ m.config.height))
    (hno : ¬ (m.cell r.x r.y = CellType.Energy ∧
                RobotModule.EnergyCollector ∈ r.modules) ∧
           ¬ (m.cell r.x r.y = CellType.Mineral ∧ RobotModule.Drill ∈ r.modules) ∧
           ¬ (m.cell r.x r.y = CellType.ScientificSite ∧
                RobotModule.Exploration ∈ r.modules)) :
    r.try_gather_resource m = (r, m, false) := by
  unfold Robot.try_gather_resource
  rw [if_neg h]
  rcases hc : m.cell r.x r.y with _ | _ | _ | _ | _
  · rfl
  · rfl
  · rw [if_neg (fun hm => hno.1 ⟨hc, hm⟩)]
  · rw [if_neg (fun hm => hno.2.1 ⟨hc, hm⟩)]
  · rw [if_neg (fun hm => hno.2.2 ⟨hc, hm⟩)]

/-- Single-attempt capability gating: an agent lacking a module neither
gains the matching resource nor alters any cell holding it. -/
theorem gather_step_gating (r : Robot) (m : Map) :
    (RobotModule.Drill ∉ r.modules →
      (r.try_gather_resource m).1.carried_minerals = r.carried_minerals ∧
      ∀ x y, m.cell x y = CellType.Mineral →
        (r.try_gather_resource m).2.1.cell x y = CellType.Mineral) ∧
    (RobotModule.EnergyCollector ∉ r.modules →
      (r.try_gather_resource m).1.carried_energy = r.carried_energy ∧
      ∀ x y, m.cell x y = CellType.Energy →
        (r.try_gather_resource m).2.1.cell x y = CellType.Energy) ∧
    (RobotModule.Exploration ∉ r.modules →
      (r.try_gather_resource m).1.carried_scientific_data = r.carried_scientific_data ∧
      ∀ x y, m.cell x y = CellType.ScientificSite →
        (r.try_gather_resource m).2.1.cell x y = CellType.ScientificSite) := by
  unfold Robot.try_gather_resource
  by_cases hb : r.x ≥ m.config.width ∨ r.y ≥ m.config.height
  · rw [if_pos hb]
    exact ⟨fun _ => ⟨rfl, fun _ _ h => h⟩, fun _ => ⟨rfl, fun _ _ h => h⟩,
      fun _ => ⟨rfl, fun _ _ h => h⟩⟩
  · rw [if_neg hb]
    rcases hcell : m.cell r.x r.y with _ | _ | _ | _ | _ <;> simp only [hcell]
    · exact ⟨fun _ => ⟨trivial, fun _ _ h => h⟩, fun _ => ⟨trivial, fun _ _ h => h⟩,
        fun _ => ⟨trivial, fun _ _ h => h⟩⟩
    · exact ⟨fun _ => ⟨trivial, fun _ _ h => h⟩, fun _ => ⟨trivial, fun _ _ h => h⟩,
        fun _ => ⟨trivial, fun _ _ h => h⟩⟩
    · by_cases hm : RobotModule.EnergyCollector ∈ r.modules
      · rw [if_pos hm]
        have hne : m.cell r.x r.y ≠ CellType.Mineral := by
          rw [hcell]; exact fun hcon => CellType.noConfusion hcon
        have hne2 : m.cell r.x r.y ≠ CellType.ScientificSite := by
          rw [hcell]; exact fun hcon => CellType.noConfusion hcon
        exact ⟨fun _ => ⟨rfl, fun x y h => setCell_keeps_cell_ne_value m r.x r.y _ hne x y h⟩,
          fun hm' => absurd hm hm',
          fun _ => ⟨rfl, fun x y h => setCell_keeps_cell_ne_value m r.x r.y _ hne2 x y h⟩⟩
      · rw [if_neg hm]
        exact ⟨fun _ => ⟨rfl, fun _ _ h => h⟩, fun _ => ⟨rfl, fun _ _ h => h⟩,
          fun _ => ⟨rfl, fun _ _ h => h⟩⟩
    · by_cases hm : RobotModule.Drill ∈ r.modules
      · rw [if_pos hm]
        have hne : m.cell r.x r.y ≠ CellType.Energy := by
          rw [hcell]; exact fun hcon => CellType.noConfusion hcon
        have hne2 : m.cell r.x r.y ≠ CellType.ScientificSite := by
          rw [hcell]; exact fun hcon => CellType.noConfusion hcon
        exact ⟨fun hm' => absurd hm hm',
          fun _ => ⟨rfl, fun x y h => setCell_keeps_cell_ne_value m r.x r.y _ hne x y h⟩,
          fun _ => ⟨rfl, fun x y h => setCell_keeps_cell_ne_value m r.x r.y _ hne2 x y h⟩⟩
      · rw [if_neg hm]
        exact ⟨fun _ => ⟨rfl, fun _ _ h => h⟩, fun _ => ⟨rfl, fun _ _ h => h⟩,
          fun _ => ⟨rfl, fun _ _ h => h⟩⟩
    · by_cases hm : RobotModule.Exploration ∈ r.modules
      · rw [if_pos hm]
        exact ⟨fun _ => ⟨rfl, fun _ _ h => h⟩, fun _ => ⟨rfl, fun _ _ h => h⟩,
          fun hm' => absurd hm hm'⟩
      · rw [if_neg hm]
        exact ⟨fun _ => ⟨rfl, fun _ _ h => h⟩, fun _ => ⟨rfl, fun _ _ h => h⟩,
          fun _ => ⟨rfl, fun _ _ h => h⟩⟩

/-- A gather attempt never changes the module list. -/
theorem gather_modules_const (r : Robot) (m : Map) :
    (r.try_gather_resource m).1.modules = r.modules := by
  unfold Robot.try_gather_resource
  by_cases hb : r.x ≥ m.config.width ∨ r.y ≥ m.config.height
  · rw [if_pos hb]
  · rw [if_neg hb]
    rcases hcell : m.cell r.x r.y with _ | _ | _ | _ | _ <;> simp only [hcell] <;>
      split <;> rfl

/-- Bool-to-Prop reading of `Robot.is_near_base`. -/
theorem is_near_base_iff (r : Robot) (cx cy : ℕ) :
    r.is_near_base cx cy = true ↔ (Nat.dist r.x cx ≤ 1 ∧ Nat.dist r.y cy ≤ 1) := by
  simp [Robot.is_near_base]

/-! ## Claim theorems -/

/-- C3: `try_create_robot` succeeds iff all three resource counters are at
least 1; on success it deducts exactly 1 from each counter and the new
robot carries exactly one capability module; on failure the station is
unchanged; from counters (1,1,1) one call succeeds leaving (0,0,0) and an
immediately following call returns no robot. -/
theorem claim_C3 :
    (∀ s : Station, s.try_create_robot.1.isSome = true ↔
      (1 ≤ s.energy_storage ∧ 1 ≤ s.minerals_storage ∧ 1 ≤ s.scientific_data_count)) ∧
    (∀ (s : Station) (r : Robot) (s' : Station), s.try_create_robot = (some r, s') →
      s'.energy_storage + 1 = s.energy_storage ∧
      s'.minerals_storage + 1 = s.minerals_storage ∧
      s'.scientific_data_count + 1 = s.scientific_data_count ∧
      r.modules.length = 1) ∧
    (∀ s : Station, s.try_create_robot.1 = none → s.try_create_robot.2 = s) ∧
    (∀ s : Station, s.energy_storage = 1 → s.minerals_storage = 1 →
      s.scientific_data_count = 1 →
      s.try_create_robot.1.isSome = true ∧
      s.try_create_robot.2.energy_storage = 0 ∧
      s.try_create_robot.2.minerals_storage = 0 ∧
      s.try_create_robot.2.scientific_data_count = 0 ∧
      s.try_create_robot.2.try_create_robot.1 = none) := by
  have key : ∀ s : Station,
      (1 ≤ s.energy_storage ∧ 1 ≤ s.minerals_storage ∧ 1 ≤ s.scientific_data_count →
        s.try_create_robot.1.isSome = true ∧
        s.try_create_robot.2.energy_storage + 1 = s.energy_storage ∧
        s.try_create_robot.2.minerals_storage + 1 = s.minerals_storage ∧
        s.try_create_robot.2.scientific_data_count + 1 = s.scientific_data_count ∧
        (∀ r, s.try_create_robot.1 = some r → r.modules.length = 1)) ∧
      (¬ (1 ≤ s.energy_storage ∧ 1 ≤ s.minerals_storage ∧ 1 ≤ s.scientific_data_count) →
        s.try_create_robot = (none, s)) := by
    intro s
    rw [try_create_robot_eq s]
    by_cases h : 1 ≤ s.energy_storage ∧ 1 ≤ s.minerals_storage ∧ 1 ≤ s.scientific_data_count
    · obtain ⟨h1, h2, h3⟩ := h
      have hu := update_counts_preserves
        ({ s with energy_storage := s.energy_storage - 1,
                  minerals_storage := s.minerals_storage - 1,
                  scientific_data_count := s.scientific_data_count - 1,
                  robot_counter := s.robot_counter + 1 } : Station)
        s.determine_next_robot_type
      constructor
      · intro _
        simp only [if_pos (And.intro h1 (And.intro h2 h3))]
        refine ⟨rfl, ?_, ?_, ?_, ?_⟩
        · simp [hu.1]; omega
        · simp [hu.2.1]; omega
        · simp [hu.2.2]; omega
        · intro r hr
          simp only [Option.some.injEq] at hr
          simp [← hr, Robot.new]
      · intro hc; exact absurd ⟨h1, h2, h3⟩ hc
    · constructor
      · intro hc; exact absurd hc h
      · intro _; simp [if_neg h]
  refine ⟨?_, ?_, ?_, ?_⟩
  · intro s
    constructor
    · intro hs
      by_contra hc
      have := (key s).2 hc
      rw [this] at hs
      simp at hs
    · intro h; exact ((key s).1 h).1
  · intro s r s' h
    have h1 : s.try_create_robot.1 = some r := by rw [h]
    have hsome : s.try_create_robot.1.isSome = true := by rw [h1]; rfl
    have hcond : 1 ≤ s.energy_storage ∧ 1 ≤ s.minerals_storage ∧
        1 ≤ s.scientific_data_count := by
      by_contra hc
      have := (key s).2 hc
      rw [this] at hsome
      simp at hsome
    have hk := (key s).1 hcond
    have h2 : s.try_create_robot.2 = s' := by rw [h]
    refine ⟨by rw [← h2]; exact hk.2.1, by rw [← h2]; exact hk.2.2.1,
      by rw [← h2]; exact hk.2.2.2.1, hk.2.2.2.2 r h1⟩
  · intro s h
    by_cases hc : 1 ≤ s.energy_storage ∧ 1 ≤ s.minerals_storage ∧
        1 ≤ s.scientific_data_count
    · have := ((key s).1 hc).1
      rw [h] at this; simp at this
    · rw [(key s).2 hc]
  · intro s h1 h2 h3
    have hcond : 1 ≤ s.energy_storage ∧ 1 ≤ s.minerals_storage ∧
        1 ≤ s.scientific_data_count := by omega
    have hk := (key s).1 hcond
    have e1 : s.try_create_robot.2.energy_storage = 0 := by omega
    have e2 : s.try_create_robot.2.minerals_storage = 0 := by omega
    have e3 : s.try_create_robot.2.scientific_data_count = 0 := by omega
    refine ⟨hk.1, e1, e2, e3, ?_⟩
    by_cases hc2 : 1 ≤ s.try_create_robot.2.energy_storage ∧
        1 ≤ s.try_create_robot.2.minerals_storage ∧
        1 ≤ s.try_create_robot.2.scientific_data_count
    · omega
    · have := (key s.try_create_robot.2).2 hc2
      rw [this]

/-- C4 counterexample: at `tieStation` (3 explorers, 1 driller, 1 energy
collector, all storages at 5) the Drill and EnergyCollector adjusted
deficits tie for the maximum, the spec's tie-break (Exploration, then
Drill, then EnergyCollector) picks Drill, but the code picks
EnergyCollector. -/
theorem claim_C4_counterexample :
    tieStation.adjustedDeficit RobotModule.Drill =
      tieStation.adjustedDeficit RobotModule.EnergyCollector ∧
    tieStation.adjustedDeficit RobotModule.Exploration <
      tieStation.adjustedDeficit RobotModule.Drill ∧
    specChoice tieStation = RobotModule.Drill ∧
    tieStation.determine_next_robot_type = RobotModule.EnergyCollector := by
  refine ⟨?_, ?_, ?_, ?_⟩ <;>
    norm_num [Station.adjustedDeficit, Station.determine_next_robot_type, specChoice,
      tieStation]

/-- C4 (amended): the chosen capability always carries the maximal
resource-adjusted deficit, but ties are broken toward the LATER capability
of the evaluation order — Exploration wins only when strictly above both
others, Drill only when additionally strictly above EnergyCollector. -/
theorem claim_C4 :
    (∀ (s : Station) (mod : RobotModule),
      s.adjustedDeficit mod ≤ s.adjustedDeficit s.determine_next_robot_type) ∧
    (∀ s : Station,
      (s.determine_next_robot_type = RobotModule.Exploration ↔
        s.adjustedDeficit RobotModule.Drill < s.adjustedDeficit RobotModule.Exploration ∧
        s.adjustedDeficit RobotModule.EnergyCollector <
          s.adjustedDeficit RobotModule.Exploration) ∧
      (s.determine_next_robot_type = RobotModule.Drill ↔
        ¬ (s.adjustedDeficit RobotModule.Drill < s.adjustedDeficit RobotModule.Exploration ∧
           s.adjustedDeficit RobotModule.EnergyCollector <
             s.adjustedDeficit RobotModule.Exploration) ∧
        s.adjustedDeficit RobotModule.EnergyCollector <
          s.adjustedDeficit RobotModule.Drill)) := by
  constructor
  · intro s mod
    rw [determine_eq]
    split
    · rename_i h
      cases mod
      · exact le_refl _
      · exact le_of_lt h.1
      · exact le_of_lt h.2
    · rename_i h
      rw [not_and_or, not_lt, not_lt] at h
      split
      · rename_i h2
        cases mod
        · rcases h with h | h
          · exact h
          · exact le_trans h (le_of_lt h2)
        · exact le_refl _
        · exact le_of_lt h2
      · rename_i h2
        rw [not_lt] at h2
        cases mod
        · rcases h with h | h
          · exact le_trans h h2
          · exact h
        · exact h2
        · exact le_refl _
  · intro s
    rw [determine_eq]
    constructor
    · constructor
      · intro h
        by_contra hc
        revert h
        split
        · rename_i hgt; intro; exact hc ⟨hgt.1, hgt.2⟩
        · split <;> intro h <;> exact RobotModule.noConfusion h
      · intro h
        rw [if_pos ⟨h.1, h.2⟩]
    · constructor
      · intro h
        revert h
        split
        · intro h; exact absurd h (by intro h'; exact RobotModule.noConfusion h')
        · rename_i h1
          split
          · rename_i h2; intro _; exact ⟨h1, h2⟩
          · intro h; exact absurd h (by intro h'; exact RobotModule.noConfusion h')
      · intro ⟨h1, h2⟩
        rw [if_neg h1, if_pos h2]

/-- C5: capability gating over any number of consecutive gather attempts —
without Drill the carried mineral counter and every Mineral cell are
untouched; without EnergyCollector likewise for Energy; without
Exploration likewise for ScientificSite. -/
theorem claim_C5 :
    ∀ (n : ℕ) (r : Robot) (m : Map),
      (RobotModule.Drill ∉ r.modules →
        (gatherIter n r m).1.carried_minerals = r.carried_minerals ∧
        ∀ x y, m.cell x y = CellType.Mineral →
          (gatherIter n r m).2.cell x y = CellType.Mineral) ∧
      (RobotModule.EnergyCollector ∉ r.modules →
        (gatherIter n r m).1.carried_energy = r.carried_energy ∧
        ∀ x y, m.cell x y = CellType.Energy →
          (gatherIter n r m).2.cell x y = CellType.Energy) ∧
      (RobotModule.Exploration ∉ r.modules →
        (gatherIter n r m).1.carried_scientific_data = r.carried_scientific_data ∧
        ∀ x y, m.cell x y = CellType.ScientificSite →
          (gatherIter n r m).2.cell x y = CellType.ScientificSite) := by
  intro n
  induction n with
  | zero =>
    intro r m
    exact ⟨fun _ => ⟨rfl, fun _ _ h => h⟩, fun _ => ⟨rfl, fun _ _ h => h⟩,
      fun _ => ⟨rfl, fun _ _ h => h⟩⟩
  | succ k ih =>
    intro r m
    have hstep := gather_step_gating r m
    have hmod := gather_modules_const r m
    have hiter : gatherIter (k + 1) r m =
        gatherIter k (r.try_gather_resource m).1 (r.try_gather_resource m).2.1 := rfl
    have hih := ih (r.try_gather_resource m).1 (r.try_gather_resource m).2.1
    refine ⟨fun hd => ?_, fun hd => ?_, fun hd => ?_⟩
    · have hd' : RobotModule.Drill ∉ (r.try_gather_resource m).1.modules := by
        rw [hmod]; exact hd
      have h1 := hstep.1 hd
      have h2 := hih.1 hd'
      rw [hiter]
      exact ⟨h2.1.trans h1.1, fun x y h => h2.2 x y (h1.2 x y h)⟩
    · have hd' : RobotModule.EnergyCollector ∉ (r.try_gather_resource m).1.modules := by
        rw [hmod]; exact hd
      have h1 := hstep.2.1 hd
      have h2 := hih.2.1 hd'
      rw [hiter]
      exact ⟨h2.1.trans h1.1, fun x y h => h2.2 x y (h1.2 x y h)⟩
    · have hd' : RobotModule.Exploration ∉ (r.try_gather_resource m).1.modules := by
        rw [hmod]; exact hd
      have h1 := hstep.2.2 hd
      have h2 := hih.2.2 hd'
      rw [hiter]
      exact ⟨h2.1.trans h1.1, fun x y h => h2.2 x y (h1.2 x y h)⟩

/-- C6: a deposit conserves each carried-plus-stored sum unconditionally;
within Chebyshev distance 1 of the map center it adds every carried amount
to the matching station counter and zeroes all three carried counters;
farther away both robot and station are unchanged. -/
theorem claim_C6 :
    ∀ (r : Robot) (st : Station) (m : Map),
      ((r.try_deposit_resources st m).2.energy_storage +
          (r.try_deposit_resources st m).1.carried_energy =
        st.energy_storage + r.carried_energy ∧
       (r.try_deposit_resources st m).2.minerals_storage +
          (r.try_deposit_resources st m).1.carried_minerals =
        st.minerals_storage + r.carried_minerals ∧
       (r.try_deposit_resources st m).2.scientific_data_count +
          (r.try_deposit_resources st m).1.carried_scientific_data =
        st.scientific_data_count + r.carried_scientific_data) ∧
      (Nat.dist r.x (m.config.width / 2) ≤ 1 ∧ Nat.dist r.y (m.config.height / 2) ≤ 1 →
        (r.try_deposit_resources st m).2.energy_storage =
          st.energy_storage + r.carried_energy ∧
        (r.try_deposit_resources st m).2.minerals_storage =
          st.minerals_storage + r.carried_minerals ∧
        (r.try_deposit_resources st m).2.scientific_data_count =
          st.scientific_data_count + r.carried_scientific_data ∧
        (r.try_deposit_resources st m).1.carried_energy = 0 ∧
        (r.try_deposit_resources st m).1.carried_minerals = 0 ∧
        (r.try_deposit_resources st m).1.carried_scientific_data = 0) ∧
      (¬ (Nat.dist r.x (m.config.width / 2) ≤ 1 ∧
          Nat.dist r.y (m.config.height / 2) ≤ 1) →
        r.try_deposit_resources st m = (r, st)) := by
  intro r st m
  have hiff := is_near_base_iff r (m.config.width / 2) (m.config.height / 2)
  by_cases hnear : r.is_near_base (m.config.width / 2) (m.config.height / 2)
  · have hkey :
        (r.try_deposit_resources st m).2.energy_storage =
          st.energy_storage + r.carried_energy ∧
        (r.try_deposit_resources st m).2.minerals_storage =
          st.minerals_storage + r.carried_minerals ∧
        (r.try_deposit_resources st m).2.scientific_data_count =
          st.scientific_data_count + r.carried_scientific_data ∧
        (r.try_deposit_resources st m).1.carried_energy = 0 ∧
        (r.try_deposit_resources st m).1.carried_minerals = 0 ∧
        (r.try_deposit_resources st m).1.carried_scientific_data = 0 := by
      unfold Robot.try_deposit_resources
      simp only [if_pos hnear]
      split_ifs <;>
        simp_all [Station.add_energy, Station.add_minerals,
          Station.add_scientific_data]
    exact ⟨⟨by omega, by omega, by omega⟩, fun _ => hkey,
      fun hc => absurd (hiff.mp hnear) hc⟩
  · have hfalse : r.is_near_base (m.config.width / 2) (m.config.height / 2) = false := by
      simpa using hnear
    have hfar : r.try_deposit_resources st m = (r, st) := by
      unfold Robot.try_deposit_resources
      rw [if_neg (by rw [hfalse]; simp)]
    rw [hfar]
    exact ⟨⟨rfl, rfl, rfl⟩, fun hc => absurd (hiff.mpr hc) hnear, fun _ => rfl⟩

/-- C7: a successful gather clears an Energy or Mineral cell to Empty,
leaves a ScientificSite cell (indeed the whole map) unchanged, and no cell
other than the agent's current cell is ever modified. -/
theorem claim_C7 :
    ∀ (r : Robot) (m : Map),
      ((r.try_gather_resource m).2.2 = true → m.cell r.x r.y = CellType.Energy →
        (r.try_gather_resource m).2.1.cell r.x r.y = CellType.Empty) ∧
      ((r.try_gather_resource m).2.2 = true → m.cell r.x r.y = CellType.Mineral →
        (r.try_gather_resource m).2.1.cell r.x r.y = CellType.Empty) ∧
      (m.cell r.x r.y = CellType.ScientificSite → (r.try_gather_resource m).2.1 = m) ∧
      (∀ x y, ¬ (x = r.x ∧ y = r.y) →
        (r.try_gather_resource m).2.1.cell x y = m.cell x y) := by
  intro r m
  by_cases hb : r.x ≥ m.config.width ∨ r.y ≥ m.config.height
  · rw [try_gather_out_of_bounds r m hb]
    exact ⟨fun h => absurd h (by simp), fun h => absurd h (by simp),
      fun _ => rfl, fun _ _ _ => rfl⟩
  · rcases hcell : m.cell r.x r.y with _ | _ | _ | _ | _
    · rw [try_gather_noop r m hb
        (by rw [hcell]; exact ⟨fun h => by simp at h, fun h => by simp at h,
          fun h => by simp at h⟩)]
      exact ⟨fun h => absurd h (by simp), fun h => absurd h (by simp),
        fun _ => rfl, fun _ _ _ => rfl⟩
    · rw [try_gather_noop r m hb
        (by rw [hcell]; exact ⟨fun h => by simp at h, fun h => by simp at h,
          fun h => by simp at h⟩)]
      exact ⟨fun h => absurd h (by simp), fun h => absurd h (by simp),
        fun _ => rfl, fun _ _ _ => rfl⟩
    · by_cases hm : RobotModule.EnergyCollector ∈ r.modules
      · rw [try_gather_energy r m hb hcell hm]
        obtain ⟨h1, h2⟩ := cell_bounds m
          (show m.cell r.x r.y ≠ CellType.Empty by
            rw [hcell]; exact fun hcon => CellType.noConfusion hcon)
        refine ⟨fun _ _ => cell_setCell_self m r.x r.y _ h1 h2,
          fun _ hmin => absurd hmin (by simp),
          fun hs => absurd hs (by simp),
          fun x y hne => cell_setCell_ne m r.x r.y x y _ hne⟩
      · rw [try_gather_noop r m hb
          (by rw [hcell]; exact ⟨fun h => absurd h.2 hm, fun h => by simp at h,
            fun h => by simp at h⟩)]
        exact ⟨fun h => absurd h (by simp), fun h => absurd h (by simp),
          fun _ => rfl, fun _ _ _ => rfl⟩
    · by_cases hm : RobotModule.Drill ∈ r.modules
      · rw [try_gather_mineral r m hb hcell hm]
        obtain ⟨h1, h2⟩ := cell_bounds m
          (show m.cell r.x r.y ≠ CellType.Empty by
            rw [hcell]; exact fun hcon => CellType.noConfusion hcon)
        refine ⟨fun _ hen => absurd hen (by simp),
          fun _ _ => cell_setCell_self m r.x r.y _ h1 h2,
          fun hs => absurd hs (by simp),
          fun x y hne => cell_setCell_ne m r.x r.y x y _ hne⟩
      · rw [try_gather_noop r m hb
          (by rw [hcell]; exact ⟨fun h => by simp at h, fun h => absurd h.2 hm,
            fun h => by simp at h⟩)]
        exact ⟨fun h => absurd h (by simp), fun h => absurd h (by simp),
          fun _ => rfl, fun _ _ _ => rfl⟩
    · by_cases hm : RobotModule.Exploration ∈ r.modules
      · rw [try_gather_science r m hb hcell hm]
        exact ⟨fun _ hen => absurd hen (by simp),
          fun _ hmin => absurd hmin (by simp),
          fun _ => rfl, fun _ _ _ => rfl⟩
      · rw [try_gather_noop r m hb
          (by rw [hcell]; exact ⟨fun h => by simp at h, fun h => by simp at h,
            fun h => absurd h.2 hm⟩)]
        exact ⟨fun h => absurd h (by simp), fun h => absurd h (by simp),
          fun _ => rfl, fun _ _ _ => rfl⟩

/-- C8 (visibility operations modelled from the spec): a cell that reached
Explored is never returned to Hidden by any sequence of
fade/update operations; `update_visibility` never downgrades a cell (its
result at any position is either Visible or the old value, and a Visible
cell stays Visible); `fade_visibility` sends exactly the Visible cells to
Explored and leaves Hidden and Explored cells untouched. -/
theorem claim_C8 :
    ∀ (v : Visibility) (x y : ℕ),
      (∀ ops : List VisOp, v.vis x y = CellVisibility.Explored →
        (applyVisOps ops v).vis x y ≠ CellVisibility.Hidden) ∧
      (∀ cx cy r,
        (v.vis x y = CellVisibility.Visible →
          (v.update_visibility cx cy r).vis x y = CellVisibility.Visible) ∧
        ((v.update_visibility cx cy r).vis x y = CellVisibility.Visible ∨
         (v.update_visibility cx cy r).vis x y = v.vis x y)) ∧
      (v.fade_visibility.vis x y =
        if v.vis x y = CellVisibility.Visible then CellVisibility.Explored
        else v.vis x y) := by
  intro v x y
  have hstep : ∀ (op : VisOp) (w : Visibility), w.vis x y ≠ CellVisibility.Hidden →
      (op.apply w).vis x y ≠ CellVisibility.Hidden := by
    intro op w h
    cases op with
    | fade =>
      show (if w.vis x y = CellVisibility.Visible then CellVisibility.Explored
        else w.vis x y) ≠ CellVisibility.Hidden
      split
      · exact fun hcon => CellVisibility.noConfusion hcon
      · exact h
    | update cx cy r =>
      show (if x < w.width ∧ y < w.height ∧
          Nat.dist x cx ^ 2 + Nat.dist y cy ^ 2 ≤ r ^ 2 then CellVisibility.Visible
        else w.vis x y) ≠ CellVisibility.Hidden
      split
      · exact fun hcon => CellVisibility.noConfusion hcon
      · exact h
  have hmono : ∀ (ops : List VisOp) (w : Visibility),
      w.vis x y ≠ CellVisibility.Hidden →
      (applyVisOps ops w).vis x y ≠ CellVisibility.Hidden := by
    intro ops
    induction ops with
    | nil => exact fun w h => h
    | cons op rest ih =>
      intro w h
      exact ih (op.apply w) (hstep op w h)
  refine ⟨?_, ?_, rfl⟩
  · intro ops h
    exact hmono ops v (by rw [h]; exact fun hcon => CellVisibility.noConfusion hcon)
  · intro cx cy r
    constructor
    · intro h
      show (if _ then CellVisibility.Visible else v.vis x y) = CellVisibility.Visible
      split
      · rfl
      · exact h
    · show (if _ then CellVisibility.Visible else v.vis x y) = CellVisibility.Visible ∨
        (if _ then CellVisibility.Visible else v.vis x y) = v.vis x y
      split
      · exact Or.inl rfl
      · exact Or.inr rfl

/-- C9 counterexample: a wandering robot at (2,2) of an all-walkable 5×5
map whose previous movement delta was (1,0) (the cell (3,2) it would
repeat into is walkable) repeats that delta for exactly 1 of the 9
equally likely draw pairs — probability 1/9, not the claimed 80% — since
the robot state records no last-movement delta at all. -/
theorem claim_C9_counterexample :
    emptyMap5.is_walkable 3 2 = true ∧
    ((Finset.range 3 ×ˢ Finset.range 3).filter fun ab =>
      (wanderRobot.random_move emptyMap5 [ab.1, ab.2]).1.x = 3 ∧
      (wanderRobot.random_move emptyMap5 [ab.1, ab.2]).1.y = 2).card = 1 ∧
    ¬ ((4 : ℚ)/5 ≤ (1 : ℚ)/9) := by
  refine ⟨by decide, by decide, by norm_num⟩

/-- C9 (amended): the wandering fallback is memoryless and unbiased — the
robot keeps no last-movement-direction state, so the outcome depends only
on its position, the map and the two fresh draws (`dx` then `dy`, each
uniform over `{-1,0,1}`): the robot moves to the clamped target exactly
when that cell is walkable and stays put otherwise. -/
theorem claim_C9 :
    ∀ (r r' : Robot) (m : Map) (a b : ℕ) (rest : List ℕ),
      r.should_return_to_base = false → r'.should_return_to_base = false →
      r.x = r'.x → r.y = r'.y →
      ((r.random_move m (a :: b :: rest)).1.x = (r'.random_move m (a :: b :: rest)).1.x ∧
       (r.random_move m (a :: b :: rest)).1.y = (r'.random_move m (a :: b :: rest)).1.y ∧
       (r.random_move m (a :: b :: rest)).2 = rest) ∧
      ((m.is_walkable
          ((clampZ ((r.x : ℤ) + (((a % 3 : ℕ) : ℤ) - 1)) 0 ((m.config.width : ℤ) - 1)).toNat)
          ((clampZ ((r.y : ℤ) + (((b % 3 : ℕ) : ℤ) - 1)) 0 ((m.config.height : ℤ) - 1)).toNat)
          = true →
        (r.random_move m (a :: b :: rest)).1 =
          { r with
            x := (clampZ ((r.x : ℤ) + (((a % 3 : ℕ) : ℤ) - 1)) 0
              ((m.config.width : ℤ) - 1)).toNat,
            y := (clampZ ((r.y : ℤ) + (((b % 3 : ℕ) : ℤ) - 1)) 0
              ((m.config.height : ℤ) - 1)).toNat }) ∧
       (m.is_walkable
          ((clampZ ((r.x : ℤ) + (((a % 3 : ℕ) : ℤ) - 1)) 0 ((m.config.width : ℤ) - 1)).toNat)
          ((clampZ ((r.y : ℤ) + (((b % 3 : ℕ) : ℤ) - 1)) 0 ((m.config.height : ℤ) - 1)).toNat)
          = false →
        (r.random_move m (a :: b :: rest)).1 = r)) := by
  intro r r' m a b rest hret hret' hx hy
  have hmove : ∀ (q : Robot), q.should_return_to_base = false →
      q.random_move m (a :: b :: rest) =
      (if m.is_walkable
          ((clampZ ((q.x : ℤ) + (((a % 3 : ℕ) : ℤ) - 1)) 0 ((m.config.width : ℤ) - 1)).toNat)
          ((clampZ ((q.y : ℤ) + (((b % 3 : ℕ) : ℤ) - 1)) 0 ((m.config.height : ℤ) - 1)).toNat)
        then
          ({ q with
            x := (clampZ ((q.x : ℤ) + (((a % 3 : ℕ) : ℤ) - 1)) 0
              ((m.config.width : ℤ) - 1)).toNat,
            y := (clampZ ((q.y : ℤ) + (((b % 3 : ℕ) : ℤ) - 1)) 0
              ((m.config.height : ℤ) - 1)).toNat }, rest)
        else (q, rest)) := by
    intro q hq
    unfold Robot.random_move
    rw [if_neg (by rw [hq]; simp)]
    rfl
  constructor
  · rw [hmove r hret, hmove r' hret', hx, hy]
    refine ⟨?_, ?_, ?_⟩ <;> split <;> simp_all
  · constructor
    · intro hw
      rw [hmove r hret, if_pos hw]
    · intro hw
      rw [hmove r hret, if_neg (by rw [hw]; simp)]

/-- C9 witness: concrete wandering robots at (2,2) of the 5×5 empty map,
draws (2,1) — the stream is consumed by exactly two draws. -/
theorem claim_C9_witness :
    (wanderRobot.random_move emptyMap5 [2, 1]).2 = [] :=
  (claim_C9 wanderRobot (Robot.new 1 2 2 []) emptyMap5 2 1 []
    (by decide) (by decide) rfl rfl).1.2.2

/-- C10 counterexample: the hardcoded spawn coordinates (25,15) also
coincide with the map center of the non-default 51×31 configuration, so
they do not coincide "only" for 50×30. -/
theorem claim_C10_counterexample :
    mapCenter { width := 51, height := 31, seed := 0 } = (25, 15) ∧
    ¬ (({ width := 51, height := 31, seed := 0 } : MapConfig).width = 50 ∧
       ({ width := 51, height := 31, seed := 0 } : MapConfig).height = 30) := by
  decide

/-- C10 (amended): every robot created by `try_create_robot` is placed at
the hardcoded coordinates (25,15) = (50/2, 30/2) whatever the station
state and independently of the map configuration in use; those
coordinates equal a configuration's map center exactly when
`width / 2 = 25` and `height / 2 = 15` — so for the default 50×30 (among
others, e.g. 51×31), but not in general (e.g. 10×10). -/
theorem claim_C10 :
    (∀ (s : Station) (r : Robot), s.try_create_robot.1 = some r → (r.x, r.y) = (25, 15)) ∧
    (∀ c : MapConfig, mapCenter c = (25, 15) ↔ (c.width / 2 = 25 ∧ c.height / 2 = 15)) ∧
    mapCenter { width := 50, height := 30, seed := 42 } = (25, 15) ∧
    mapCenter { width := 10, height := 10, seed := 0 } ≠ (25, 15) := by
  refine ⟨?_, ?_, by decide, by decide⟩
  · intro s r h
    rw [try_create_robot_eq s] at h
    split at h
    · simp only [Option.some.injEq] at h
      rw [← h]
      rfl
    · exact absurd h (by simp)
  · intro c
    constructor
    · intro h
      exact ⟨congrArg Prod.fst h, congrArg Prod.snd h⟩
    · intro ⟨h1, h2⟩
      unfold mapCenter
      rw [h1, h2]

set_option maxRecDepth 100000 in
/-- C1: map generation is NOT deterministic in the configuration — with
the same width, height and seed (hence the same Perlin oracle) two
`thread_rng` streams yield different cell grids: with an empty stream
cell (0,0) stays the Obstacle produced by the automaton rounds, while the
stream drawing (2,2) carves a path through it and then places an Energy
resource there. -/
theorem claim_C1 :
    (Map.new smallConfig flatNoise []).cell 0 0 = CellType.Obstacle ∧
    (Map.new smallConfig flatNoise [2, 2]).cell 0 0 = CellType.Energy ∧
    Map.new smallConfig flatNoise [] ≠ Map.new smallConfig flatNoise [2, 2] := by
  refine ⟨by decide, by decide, by decide⟩

end Ereea

namespace Ereea

theorem manhattan_self (p : ℕ × ℕ) : manhattan_distance p p = 0 := by
  simp [manhattan_distance, Nat.dist_self]

theorem manhattan_comm (p q : ℕ × ℕ) :
    manhattan_distance p q = manhattan_distance q p := by
  simp [manhattan_distance, Nat.dist_comm]

theorem manhattan_triangle (a b c : ℕ × ℕ) :
    manhattan_distance a c ≤ manhattan_distance a b + manhattan_distance b c := by
  unfold manhattan_distance
  have h1 := Nat.dist.triangle_inequality a.1 b.1 c.1
  have h2 := Nat.dist.triangle_inequality a.2 b.2 c.2
  omega

theorem adj_ne {p q : ℕ × ℕ} (h : manhattan_distance p q = 1) : p ≠ q := by
  intro he
  rw [he, manhattan_self] at h
  exact Nat.noConfusion h

theorem is_walkable_bounds {m : Map} {x y : ℕ} (h : m.is_walkable x y = true) :
    x < m.config.width ∧ y < m.config.height := by
  unfold Map.is_walkable at h
  by_cases hb : x ≥ m.config.width ∨ y ≥ m.config.height
  · rw [if_pos hb] at h
    exact absurd h (by simp)
  · omega

theorem mem_foldl_filtered {α β : Type} (C : β → Prop) [DecidablePred C]
    (f : β → α) (x : α) :
    ∀ (ds : List β) (acc : List α),
      x ∈ ds.foldl (fun a d => if C d then a ++ [f d] else a) acc ↔
        x ∈ acc ∨ ∃ d ∈ ds, C d ∧ x = f d := by
  intro ds
  induction ds with
  | nil => simp
  | cons d rest ih =>
    intro acc
    show x ∈ rest.foldl _ (if C d then acc ++ [f d] else acc) ↔ _
    rw [ih]
    by_cases hc : C d
    · rw [if_pos hc]
      simp only [List.mem_append, List.mem_cons, List.not_mem_nil, or_false]
      constructor
      · rintro ((h | h) | h)
        · exact Or.inl h
        · exact Or.inr ⟨d, Or.inl rfl, hc, h⟩
        · obtain ⟨d', hd', hcd', hx⟩ := h
          exact Or.inr ⟨d', Or.inr hd', hcd', hx⟩
      · rintro (h | ⟨d', (rfl | hd'), hcd', hx⟩)
        · exact Or.inl (Or.inl h)
        · exact Or.inl (Or.inr hx)
        · exact Or.inr ⟨d', hd', hcd', hx⟩
    · rw [if_neg hc]
      simp only [List.mem_cons]
      constructor
      · rintro (h | ⟨d', hd', hcd', hx⟩)
        · exact Or.inl h
        · exact Or.inr ⟨d', Or.inr hd', hcd', hx⟩
      · rintro (h | ⟨d', (rfl | hd'), hcd', hx⟩)
        · exact Or.inl h
        · exact absurd hcd' hc
        · exact Or.inr ⟨d', hd', hcd', hx⟩

end Ereea

namespace Ereea

theorem get_neighbors_mem (m : Map) (p q : ℕ × ℕ) :
    q ∈ get_neighbors m p ↔
      (m.is_walkable q.1 q.2 = true ∧ manhattan_distance p q = 1) := by
  obtain ⟨px, py⟩ := p
  obtain ⟨qx, qy⟩ := q
  have hrw : get_neighbors m (px, py) =
      ([(0, 1), (1, 0), (0, -1), (-1, 0)] : List (ℤ × ℤ)).foldl
        (fun acc d =>
          if (0 ≤ (px : ℤ) + d.1 ∧ (px : ℤ) + d.1 < (m.config.width : ℤ) ∧
              0 ≤ (py : ℤ) + d.2 ∧ (py : ℤ) + d.2 < (m.config.height : ℤ)) ∧
             m.is_walkable ((px : ℤ) + d.1).toNat ((py : ℤ) + d.2).toNat = true then
            acc ++ [(((px : ℤ) + d.1).toNat, ((py : ℤ) + d.2).toNat)]
          else acc) [] := by
    unfold get_neighbors
    dsimp only
    congr 1
    funext acc d
    dsimp only
    by_cases h1 : 0 ≤ (px : ℤ) + d.1 ∧ (px : ℤ) + d.1 < (m.config.width : ℤ) ∧
        0 ≤ (py : ℤ) + d.2 ∧ (py : ℤ) + d.2 < (m.config.height : ℤ)
    · rw [if_pos h1]
      by_cases h2 : m.is_walkable ((px : ℤ) + d.1).toNat ((py : ℤ) + d.2).toNat = true
      · rw [if_pos h2, if_pos ⟨h1, h2⟩]
      · rw [if_neg h2, if_neg (fun hc => h2 hc.2)]
    · rw [if_neg h1, if_neg (fun hc => h1 hc.1)]
  rw [hrw, mem_foldl_filtered]
  simp only [List.mem_cons, List.not_mem_nil, or_false, false_or]
  constructor
  · rintro ⟨d, rfl | rfl | rfl | rfl, ⟨⟨b1, b2, b3, b4⟩, hw⟩, hq⟩ <;>
    · rw [Prod.mk.injEq] at hq
      obtain ⟨hq1, hq2⟩ := hq
      subst hq1
      subst hq2
      refine ⟨hw, ?_⟩
      simp only [manhattan_distance, Nat.dist]
      omega
  · rintro ⟨hw, hman⟩
    obtain ⟨hbx, hby⟩ := is_walkable_bounds hw
    simp only [manhattan_distance, Nat.dist] at hman
    have hcases : (qx = px ∧ qy = py + 1) ∨ (qx = px ∧ py = qy + 1) ∨
        (qx = px + 1 ∧ qy = py) ∨ (px = qx + 1 ∧ qy = py) := by omega
    rcases hcases with ⟨h1, h2⟩ | ⟨h1, h2⟩ | ⟨h1, h2⟩ | ⟨h1, h2⟩
    · refine ⟨(0, 1), Or.inl rfl, ⟨⟨by omega, by omega, by omega, by omega⟩, ?_⟩, ?_⟩
      · have e1 : ((px : ℤ) + (0, (1 : ℤ)).1).toNat = qx := by omega
        have e2 : ((py : ℤ) + (0, (1 : ℤ)).2).toNat = qy := by omega
        rw [e1, e2]
        exact hw
      · rw [Prod.mk.injEq]
        exact ⟨by omega, by omega⟩
    · refine ⟨(0, -1), Or.inr (Or.inr (Or.inl rfl)),
        ⟨⟨by omega, by omega, by omega, by omega⟩, ?_⟩, ?_⟩
      · have e1 : ((px : ℤ) + ((0 : ℤ), (-1 : ℤ)).1).toNat = qx := by omega
        have e2 : ((py : ℤ) + ((0 : ℤ), (-1 : ℤ)).2).toNat = qy := by omega
        rw [e1, e2]
        exact hw
      · rw [Prod.mk.injEq]
        exact ⟨by omega, by omega⟩
    · refine ⟨(1, 0), Or.inr (Or.inl rfl),
        ⟨⟨by omega, by omega, by omega, by omega⟩, ?_⟩, ?_⟩
      · have e1 : ((px : ℤ) + ((1 : ℤ), (0 : ℤ)).1).toNat = qx := by omega
        have e2 : ((py : ℤ) + ((1 : ℤ), (0 : ℤ)).2).toNat = qy := by omega
        rw [e1, e2]
        exact hw
      · rw [Prod.mk.injEq]
        exact ⟨by omega, by omega⟩
    · refine ⟨(-1, 0), Or.inr (Or.inr (Or.inr rfl)),
        ⟨⟨by omega, by omega, by omega, by omega⟩, ?_⟩, ?_⟩
      · have e1 : ((px : ℤ) + ((-1 : ℤ), (0 : ℤ)).1).toNat = qx := by omega
        have e2 : ((py : ℤ) + ((-1 : ℤ), (0 : ℤ)).2).toNat = qy := by omega
        rw [e1, e2]
        exact hw
      · rw [Prod.mk.injEq]
        exact ⟨by omega, by omega⟩

end Ereea

namespace Ereea

theorem selectMin_spec :
    ∀ (ns : List Node) (n : Node),
      ((selectMin n ns).1 :: (selectMin n ns).2).Perm (n :: ns) ∧
      (∀ x ∈ n :: ns, (selectMin n ns).1.f_score ≤ x.f_score) := by
  intro ns
  induction ns with
  | nil =>
    intro n
    constructor
    · exact List.Perm.refl _
    · intro x hx
      rcases List.mem_singleton.mp hx with rfl
      exact le_refl _
  | cons n' ns ih =>
    intro n
    simp only [selectMin]
    by_cases hlt : n'.f_score < n.f_score
    · rw [if_pos hlt]
      dsimp only
      obtain ⟨hperm, hmin⟩ := ih n'
      constructor
      · show ((selectMin n' ns).1 :: n :: (selectMin n' ns).2).Perm (n :: n' :: ns)
        exact List.Perm.trans (List.Perm.swap n (selectMin n' ns).1 (selectMin n' ns).2)
          (hperm.cons n)
      · intro x hx
        rcases List.mem_cons.mp hx with rfl | hx'
        · exact le_of_lt (lt_of_le_of_lt (hmin n' (List.mem_cons_self _ _)) hlt)
        · exact hmin x hx'
    · rw [if_neg hlt]
      dsimp only
      obtain ⟨hperm, hmin⟩ := ih n
      constructor
      · show ((selectMin n ns).1 :: n' :: (selectMin n ns).2).Perm (n :: n' :: ns)
        exact List.Perm.trans (List.Perm.swap n' (selectMin n ns).1 (selectMin n ns).2)
          (List.Perm.trans (hperm.cons n') (List.Perm.swap n n' ns))
      · intro x hx
        rcases List.mem_cons.mp hx with rfl | hx'
        · exact hmin x (List.mem_cons_self _ _)
        · rcases List.mem_cons.mp hx' with rfl | hx''
          · exact le_trans (hmin n (List.mem_cons_self _ _)) (le_of_not_lt hlt)
          · exact hmin x (List.mem_cons.mpr (Or.inr hx''))

theorem heapPop_perm {l : List Node} {c : Node} {rest : List Node}
    (h : heapPop l = some (c, rest)) : l.Perm (c :: rest) := by
  cases l with
  | nil => exact absurd h (by simp [heapPop])
  | cons n ns =>
    have : selectMin n ns = (c, rest) := by
      simpa [heapPop] using h
    have hs := (selectMin_spec ns n).1
    rw [this] at hs
    exact (List.Perm.symm hs)

theorem heapPop_min {l : List Node} {c : Node} {rest : List Node}
    (h : heapPop l = some (c, rest)) : ∀ x ∈ l, c.f_score ≤ x.f_score := by
  cases l with
  | nil => exact absurd h (by simp [heapPop])
  | cons n ns =>
    have heq : selectMin n ns = (c, rest) := by
      simpa [heapPop] using h
    have hs := (selectMin_spec ns n).2
    rw [heq] at hs
    exact hs

theorem heapPop_none {l : List Node} (h : heapPop l = none) : l = [] := by
  cases l with
  | nil => rfl
  | cons n ns => exact absurd h (by simp [heapPop])

end Ereea

namespace Ereea

theorem path_singleton {m : Map} {s : ℕ × ℕ} (h : m.is_walkable s.1 s.2 = true) :
    IsPathList m [s] s s := by
  refine ⟨rfl, rfl, List.chain'_singleton s, ?_⟩
  intro p hp
  rcases List.mem_singleton.mp hp with rfl
  exact h

theorem path_ne_nil {m : Map} {l : List (ℕ × ℕ)} {s t : ℕ × ℕ}
    (h : IsPathList m l s t) : l ≠ [] := by
  intro he
  rw [he] at h
  exact Option.noConfusion h.1

theorem path_snoc {m : Map} {l : List (ℕ × ℕ)} {s p q : ℕ × ℕ}
    (h : IsPathList m l s p) (hadj : manhattan_distance p q = 1)
    (hw : m.is_walkable q.1 q.2 = true) : IsPathList m (l ++ [q]) s q := by
  obtain ⟨hh, hl, hc, hwk⟩ := h
  refine ⟨?_, ?_, ?_, ?_⟩
  · rw [List.head?_append_of_ne_nil _ (path_ne_nil ⟨hh, hl, hc, hwk⟩)]
    exact hh
  · exact List.getLast?_concat l
  · rw [List.chain'_append]
    refine ⟨hc, List.chain'_singleton q, ?_⟩
    intro x hx y hy
    rw [hl] at hx
    have hx' : p = x := by simpa using hx
    have hy' : q = y := by simpa using hy
    rw [← hx', ← hy']
    exact hadj
  · intro r hr
    rcases List.mem_append.mp hr with hr' | hr'
    · exact hwk r hr'
    · rcases List.mem_singleton.mp hr' with rfl
      exact hw

theorem nodup_inbounds_length_le (l : List (ℕ × ℕ)) (hnd : l.Nodup) (W H : ℕ)
    (hb : ∀ p ∈ l, p.1 < W ∧ p.2 < H) : l.length ≤ W * H := by
  have h1 : l.toFinset ⊆ Finset.range W ×ˢ Finset.range H := by
    intro p hp
    rw [List.mem_toFinset] at hp
    rcases hb p hp with ⟨hb1, hb2⟩
    simp [Finset.mem_product, hb1, hb2]
  have h2 := Finset.card_le_card h1
  rw [List.toFinset_card_of_nodup hnd] at h2
  simpa [Finset.card_product] using h2

theorem chain_manhattan_last :
    ∀ (l : List (ℕ × ℕ)),
      List.Chain' (fun a b => manhattan_distance a b = 1) l →
      ∀ (hne : l ≠ []) (i : ℕ) (hi : i < l.length),
        manhattan_distance (l.get ⟨i, hi⟩) (l.getLast hne) + i ≤ l.length - 1 := by
  intro l
  induction l with
  | nil => intro _ _ i hi; exact absurd hi (by simp)
  | cons a tl ih =>
    intro hch hne i hi
    cases tl with
    | nil =>
      have hi0 : i = 0 := by simpa using hi
      subst hi0
      simp [List.getLast, manhattan_self]
    | cons b tl' =>
      rw [List.chain'_cons] at hch
      obtain ⟨hab, hch'⟩ := hch
      have hne' : (b :: tl') ≠ [] := List.cons_ne_nil b tl'
      rw [List.getLast_cons hne']
      cases i with
      | zero =>
        have h0 := ih hch' hne' 0 (by simp)
        have htri := manhattan_triangle a b ((b :: tl').getLast hne')
        have hget0 : (b :: tl').get ⟨0, by simp⟩ = b := rfl
        rw [hget0] at h0
        have hget0' : (a :: b :: tl').get ⟨0, hi⟩ = a := rfl
        rw [hget0']
        simp only [List.length_cons] at *
        omega
      | succ j =>
        have hj : j < (b :: tl').length := by
          simpa using hi
        have h1 := ih hch' hne' j hj
        have hget : (a :: b :: tl').get ⟨j + 1, hi⟩ = (b :: tl').get ⟨j, hj⟩ := rfl
        rw [hget]
        simp only [List.length_cons] at *
        omega

end Ereea

namespace Ereea

theorem relax_skip {st : AState} {cur q : ℕ × ℕ} {gc gn : ℕ} (t : ℕ × ℕ)
    (hg : st.g_scores cur = some gc) (hgq : st.g_scores q = some gn)
    (hle : ¬ gc + 1 < gn) : relax t cur st q = st := by
  unfold relax
  rw [hg, hgq]
  simp [hle]

theorem relax_insert {st : AState} {cur q : ℕ × ℕ} {gc : ℕ} (t : ℕ × ℕ)
    (hg : st.g_scores cur = some gc)
    (himp : st.g_scores q = none ∨ ∃ gn, st.g_scores q = some gn ∧ gc + 1 < gn) :
    relax t cur st q =
      { open_set := st.open_set ++
          [{ position := q, f_score := gc + 1 + manhattan_distance q t,
             g_score := gc + 1 }]
        came_from := mapInsert st.came_from q cur
        g_scores := mapInsert st.g_scores q (gc + 1)
        f_scores := mapInsert st.f_scores q (gc + 1 + manhattan_distance q t) } := by
  unfold relax
  rw [hg]
  rcases himp with hnone | ⟨gn, hgq, hlt⟩
  · rw [hnone]
    simp
  · rw [hgq]
    simp [hlt]

theorem gsum_insert_lt (m : Map) (st st' : AState) (k : ℕ × ℕ) (v : ℕ)
    (hset : st'.g_scores = mapInsert st.g_scores k v)
    (hk1 : k.1 < m.config.width) (hk2 : k.2 < m.config.height)
    (hlt : v < (st.g_scores k).getD (m.config.width * m.config.height)) :
    gsum m st' < gsum m st := by
  unfold gsum
  rw [hset]
  apply Finset.sum_lt_sum
  · intro p hp
    unfold mapInsert
    by_cases hpk : p = k
    · rw [if_pos hpk, hpk]
      simp only [Option.getD_some]
      exact le_of_lt hlt
    · rw [if_neg hpk]
  · refine ⟨k, ?_, ?_⟩
    · simp [Finset.mem_product, hk1, hk2]
    · unfold mapInsert
      rw [if_pos rfl]
      simpa using hlt

theorem gsum_eq_of_g_eq (m : Map) (st st' : AState)
    (h : st'.g_scores = st.g_scores) : gsum m st' = gsum m st := by
  unfold gsum
  rw [h]

end Ereea

namespace Ereea

theorem relax_step_insert (m : Map) (s t cur q : ℕ × ℕ) (gc : ℕ) (st : AState)
    (hq : q ∈ get_neighbors m cur) (hg : st.g_scores cur = some gc)
    (hInv : WeakInv m s t cur st)
    (himp : st.g_scores q = none ∨ ∃ gn, st.g_scores q = some gn ∧ gc + 1 < gn) :
    WeakInv m s t cur (relax t cur st q) ∧
    (relax t cur st q).g_scores cur = some gc ∧
    (∃ gq, gq ≤ gc + 1 ∧ (relax t cur st q).g_scores q = some gq) ∧
    (∀ p v, st.g_scores p = some v →
      ∃ v', v' ≤ v ∧ (relax t cur st q).g_scores p = some v') ∧
    measureA m (relax t cur st q) ≤ measureA m st := by
  obtain ⟨hCore, hPend⟩ := hInv
  obtain ⟨hqw, hqadj⟩ := (get_neighbors_mem m cur q).mp hq
  have hqne : q ≠ cur := Ne.symm (adj_ne hqadj)
  have hqns : q ≠ s := by
    intro he
    rcases himp with hnone | ⟨gn, hgq, hlt⟩
    · rw [he, hCore.gstart] at hnone
      exact Option.noConfusion hnone
    · rw [he, hCore.gstart] at hgq
      have : gn = 0 := by
        have := Option.some.inj hgq
        omega
      omega
  -- the old value at q, when recorded, exceeds gc + 1
  have hqold : ∀ gv, st.g_scores q = some gv → gc + 1 < gv := by
    intro gv hgv
    rcases himp with hnone | ⟨gn, hgq, hlt⟩
    · rw [hnone] at hgv
      exact Option.noConfusion hgv
    · rw [hgq] at hgv
      have : gn = gv := Option.some.inj hgv
      omega
  -- witness path for cur, and q not on it
  obtain ⟨lc, hlc_path, hlc_len, hlc_nd, hlc_pt⟩ := hCore.gpath cur gc hg
  have hqnotin : q ∉ lc := by
    intro hmem
    obtain ⟨⟨i, hi⟩, hget⟩ := List.mem_iff_get.mp hmem
    obtain ⟨gv, hgvle, hgv⟩ := hlc_pt i hi
    rw [hget] at hgv
    have := hqold gv hgv
    omega
  -- the extended witness path for q
  have hl'_path : IsPathList m (lc ++ [q]) s q := path_snoc hlc_path hqadj hqw
  have hl'_len : (lc ++ [q]).length = (gc + 1) + 1 := by
    simp [hlc_len]
  have hl'_nd : (lc ++ [q]).Nodup := by
    rw [List.nodup_append]
    exact ⟨hlc_nd, List.nodup_singleton q,
      fun a ha ha' => hqnotin ((List.mem_singleton.mp ha') ▸ ha)⟩
  -- value bound from the new witness
  have hval_bound : gc + 1 < m.config.width * m.config.height := by
    have hb : ∀ p ∈ lc ++ [q], p.1 < m.config.width ∧ p.2 < m.config.height := by
      intro p hp
      exact is_walkable_bounds (hl'_path.2.2.2 p hp)
    have := nodup_inbounds_length_le (lc ++ [q]) hl'_nd _ _ hb
    omega
  rw [relax_insert t hg himp]
  set nd' : Node :=
    { position := q, f_score := gc + 1 + manhattan_distance q t, g_score := gc + 1 }
    with hnd'
  set st' : AState :=
    { open_set := st.open_set ++ [nd']
      came_from := mapInsert st.came_from q cur
      g_scores := mapInsert st.g_scores q (gc + 1)
      f_scores := mapInsert st.f_scores q (gc + 1 + manhattan_distance q t) }
    with hst'
  have hg'ne : ∀ p, p ≠ q → st'.g_scores p = st.g_scores p := by
    intro p hp
    show mapInsert st.g_scores q (gc + 1) p = st.g_scores p
    unfold mapInsert
    rw [if_neg hp]
  have hg'q : st'.g_scores q = some (gc + 1) := by
    show mapInsert st.g_scores q (gc + 1) q = some (gc + 1)
    unfold mapInsert
    rw [if_pos rfl]
  have hcf'ne : ∀ p, p ≠ q → st'.came_from p = st.came_from p := by
    intro p hp
    show mapInsert st.came_from q cur p = st.came_from p
    unfold mapInsert
    rw [if_neg hp]
  have hcf'q : st'.came_from q = some cur := by
    show mapInsert st.came_from q cur q = some cur
    unfold mapInsert
    rw [if_pos rfl]
  have hg'cur : st'.g_scores cur = some gc := by
    rw [hg'ne cur (Ne.symm hqne)]
    exact hg
  -- monotone recording
  have hmono : ∀ p v, st.g_scores p = some v →
      ∃ v', v' ≤ v ∧ st'.g_scores p = some v' := by
    intro p v hv
    by_cases hp : p = q
    · subst hp
      exact ⟨gc + 1, le_of_lt (hqold v hv), hg'q⟩
    · exact ⟨v, le_refl v, by rw [hg'ne p hp]; exact hv⟩
  refine ⟨⟨?_, ?_⟩, hg'cur, ⟨gc + 1, le_refl _, hg'q⟩, hmono, ?_⟩
  · -- AInvCore st'
    refine ⟨?_, ?_, ?_, ?_, ?_, ?_, ?_, ?_⟩
    · -- gstart
      rw [hg'ne s (Ne.symm hqns)]
      exact hCore.gstart
    · -- rec_wk
      intro p v hv
      by_cases hp : p = q
      · subst hp
        exact hqw
      · rw [hg'ne p hp] at hv
        exact hCore.rec_wk p v hv
    · -- gpath
      intro p v hv
      by_cases hp : p = q
      · rw [hp] at hv ⊢
        rw [hg'q] at hv
        have hv' : v = gc + 1 := (Option.some.inj hv).symm
        subst hv'
        refine ⟨lc ++ [q], hl'_path, hl'_len, hl'_nd, ?_⟩
        intro i hi
        by_cases hilt : i < lc.length
        · have hgeteq : (lc ++ [q]).get ⟨i, hi⟩ = lc.get ⟨i, hilt⟩ :=
            List.get_append i hilt
          obtain ⟨gv, hgvle, hgv⟩ := hlc_pt i hilt
          have hne : lc.get ⟨i, hilt⟩ ≠ q := fun he => hqnotin (he ▸ List.get_mem lc _ _)
          refine ⟨gv, hgvle, ?_⟩
          rw [hgeteq, hg'ne _ hne]
          exact hgv
        · have hieq : i = lc.length := by
            rw [List.length_append] at hi
            simp at hi
            omega
          subst hieq
          have hgeteq : (lc ++ [q]).get ⟨lc.length, hi⟩ = q := by
            rw [List.get_append_right lc [q] (le_refl _)]
            · simp
            · simp
          refine ⟨gc + 1, by omega, ?_⟩
          rw [hgeteq, hg'q]
      · rw [hg'ne p hp] at hv
        obtain ⟨lp, hlp_path, hlp_len, hlp_nd, hlp_pt⟩ := hCore.gpath p v hv
        refine ⟨lp, hlp_path, hlp_len, hlp_nd, ?_⟩
        intro i hi
        obtain ⟨gv, hgvle, hgv⟩ := hlp_pt i hi
        by_cases he : lp.get ⟨i, hi⟩ = q
        · have hlt := hqold gv (he ▸ hgv)
          refine ⟨gc + 1, by omega, ?_⟩
          rw [he, hg'q]
        · refine ⟨gv, hgvle, ?_⟩
          rw [hg'ne _ he]
          exact hgv
    · -- ent
      intro nd hnd
      rcases List.mem_append.mp hnd with hold | hnew
      · obtain ⟨gv, hgv, hgvle, hf⟩ := hCore.ent nd hold
        obtain ⟨v', hv'le, hv'⟩ := hmono nd.position gv hgv
        exact ⟨v', hv', le_trans hv'le hgvle, hf⟩
      · rcases List.mem_singleton.mp hnew with rfl
        exact ⟨gc + 1, hg'q, le_refl _, rfl⟩
    · -- goalpending
      intro gv hgv
      by_cases ht : t = q
      · refine ⟨nd', List.mem_append.mpr (Or.inr (List.mem_singleton.mpr rfl)), ?_⟩
        rw [ht]
      · rw [hg'ne t ht] at hgv
        obtain ⟨nd, hnd, hpos⟩ := hCore.goalpending gv hgv
        exact ⟨nd, List.mem_append.mpr (Or.inl hnd), hpos⟩
    · -- cfprop
      intro p pr hcf
      by_cases hp : p = q
      · subst hp
        rw [hcf'q] at hcf
        have : cur = pr := Option.some.inj hcf
        subst this
        exact ⟨gc + 1, gc, hg'q, hg'cur, by omega, hqadj⟩
      · rw [hcf'ne p hp] at hcf
        obtain ⟨gp, gpr, hgp, hgpr, hlt, hadj⟩ := hCore.cfprop p pr hcf
        rw [← hg'ne p hp] at hgp
        by_cases hpr : pr = q
        · subst hpr
          have := hqold gpr hgpr
          exact ⟨gp, gc + 1, hgp, hg'q, by omega, hadj⟩
        · rw [← hg'ne pr hpr] at hgpr
          exact ⟨gp, gpr, hgp, hgpr, hlt, hadj⟩
    · -- cfstart
      rw [hcf'ne s (Ne.symm hqns)]
      exact hCore.cfstart
    · -- cfrec
      intro p gp hgp
      by_cases hp : p = q
      · subst hp
        exact Or.inr (by rw [hcf'q]; rfl)
      · rw [hg'ne p hp] at hgp
        rcases hCore.cfrec p gp hgp with hs | hcf
        · exact Or.inl hs
        · rw [← hcf'ne p hp] at hcf
          exact Or.inr hcf
  · -- pending for p ≠ cur
    intro p hpcur gv hgv
    by_cases hp : p = q
    · subst hp
      left
      refine ⟨nd', List.mem_append.mpr (Or.inr (List.mem_singleton.mpr rfl)), rfl, ?_⟩
      rw [hg'q] at hgv
      have hveq : gc + 1 = gv := Option.some.inj hgv
      rw [← hveq]
    · rw [hg'ne p hp] at hgv
      rcases hPend p hpcur gv hgv with ⟨nd, hnd, hpos, hf⟩ | hsecond
      · exact Or.inl ⟨nd, List.mem_append.mpr (Or.inl hnd), hpos, hf⟩
      · right
        intro q' hq'
        obtain ⟨gq', hgq'le, hgq'⟩ := hsecond q' hq'
        by_cases hq'q : q' = q
        · subst hq'q
          have := hqold gq' hgq'
          exact ⟨gc + 1, by omega, hg'q⟩
        · exact ⟨gq', hgq'le, by rw [hg'ne q' hq'q]; exact hgq'⟩
  · -- measure
    have hgsum : gsum m st' < gsum m st := by
      apply gsum_insert_lt m st st' q (gc + 1) rfl
        (is_walkable_bounds hqw).1 (is_walkable_bounds hqw).2
      rcases himp with hnone | ⟨gn, hgq, hlt⟩
      · rw [hnone]
        simpa using hval_bound
      · rw [hgq]
        simpa using hlt
    have hopen : st'.open_set.length = st.open_set.length + 1 := by
      show (st.open_set ++ [nd']).length = st.open_set.length + 1
      rw [List.length_append]
      rfl
    unfold measureA
    rw [hopen]
    omega

end Ereea

namespace Ereea

theorem relax_step (m : Map) (s t cur q : ℕ × ℕ) (gc : ℕ) (st : AState)
    (hq : q ∈ get_neighbors m cur) (hg : st.g_scores cur = some gc)
    (hInv : WeakInv m s t cur st) :
    WeakInv m s t cur (relax t cur st q) ∧
    (relax t cur st q).g_scores cur = some gc ∧
    (∃ gq, gq ≤ gc + 1 ∧ (relax t cur st q).g_scores q = some gq) ∧
    (∀ p v, st.g_scores p = some v →
      ∃ v', v' ≤ v ∧ (relax t cur st q).g_scores p = some v') ∧
    measureA m (relax t cur st q) ≤ measureA m st := by
  rcases hgq : st.g_scores q with _ | gn
  · exact relax_step_insert m s t cur q gc st hq hg hInv (Or.inl hgq)
  · by_cases hlt : gc + 1 < gn
    · exact relax_step_insert m s t cur q gc st hq hg hInv (Or.inr ⟨gn, hgq, hlt⟩)
    · rw [relax_skip t hg hgq hlt]
      exact ⟨hInv, hg, ⟨gn, by omega, hgq⟩, fun p v hv => ⟨v, le_refl v, hv⟩,
        le_refl _⟩

theorem relax_fold_mono (m : Map) (s t cur : ℕ × ℕ) (gc : ℕ) :
    ∀ (neighbors : List (ℕ × ℕ)) (st : AState),
      (∀ q ∈ neighbors, q ∈ get_neighbors m cur) →
      st.g_scores cur = some gc →
      WeakInv m s t cur st →
      ∀ p v, st.g_scores p = some v →
        ∃ v', v' ≤ v ∧ (neighbors.foldl (relax t cur) st).g_scores p = some v' := by
  intro neighbors
  induction neighbors with
  | nil => exact fun st _ _ _ p v hv => ⟨v, le_refl v, hv⟩
  | cons r rest ih =>
    intro st hsub hg hInv p v hv
    have hstep := relax_step m s t cur r gc st (hsub r (List.mem_cons_self r rest))
      hg hInv
    obtain ⟨hInv1, hg1, _, hmono1, _⟩ := hstep
    obtain ⟨v1, hv1le, hv1⟩ := hmono1 p v hv
    obtain ⟨v2, hv2le, hv2⟩ :=
      ih (relax t cur st r) (fun q' hq' => hsub q' (List.mem_cons_of_mem r hq'))
        hg1 hInv1 p v1 hv1
    exact ⟨v2, le_trans hv2le hv1le, hv2⟩

theorem relax_fold (m : Map) (s t cur : ℕ × ℕ) (gc : ℕ) :
    ∀ (neighbors : List (ℕ × ℕ)) (st : AState),
      (∀ q ∈ neighbors, q ∈ get_neighbors m cur) →
      st.g_scores cur = some gc →
      WeakInv m s t cur st →
      WeakInv m s t cur (neighbors.foldl (relax t cur) st) ∧
      (neighbors.foldl (relax t cur) st).g_scores cur = some gc ∧
      (∀ q ∈ neighbors, ∃ gq, gq ≤ gc + 1 ∧
        (neighbors.foldl (relax t cur) st).g_scores q = some gq) ∧
      measureA m (neighbors.foldl (relax t cur) st) ≤ measureA m st := by
  intro neighbors
  induction neighbors with
  | nil =>
    intro st _ hg hInv
    exact ⟨hInv, hg, fun q hq => absurd hq (List.not_mem_nil q), le_refl _⟩
  | cons r rest ih =>
    intro st hsub hg hInv
    have hrmem := hsub r (List.mem_cons_self r rest)
    have hstep := relax_step m s t cur r gc st hrmem hg hInv
    obtain ⟨hInv1, hg1, ⟨gr, hgrle, hgr⟩, hmono1, hmu1⟩ := hstep
    have hsub' : ∀ q ∈ rest, q ∈ get_neighbors m cur :=
      fun q' hq' => hsub q' (List.mem_cons_of_mem r hq')
    have hfold : (r :: rest).foldl (relax t cur) st =
        rest.foldl (relax t cur) (relax t cur st r) := rfl
    rw [hfold]
    obtain ⟨hInv2, hg2, hrest2, hmu2⟩ := ih (relax t cur st r) hsub' hg1 hInv1
    refine ⟨hInv2, hg2, ?_, le_trans hmu2 hmu1⟩
    intro q' hq'
    rcases List.mem_cons.mp hq' with he | hq''
    · obtain ⟨v2, hv2le, hv2⟩ :=
        relax_fold_mono m s t cur gc rest (relax t cur st r) hsub' hg1 hInv1
          q' gr (by rw [he]; exact hgr)
      exact ⟨v2, by omega, hv2⟩
    · exact hrest2 q' hq''

end Ereea

namespace Ereea

theorem pop_weakinv (m : Map) (s t : ℕ × ℕ) (st : AState) (c : Node)
    (rest : List Node) (hpop : heapPop st.open_set = some (c, rest))
    (hInv : AInv m s t st) (hnotgoal : c.position ≠ t) :
    WeakInv m s t c.position { st with open_set := rest } := by
  obtain ⟨hCore, hPend⟩ := hInv
  have hperm := heapPop_perm hpop
  have hmemrest : ∀ nd ∈ st.open_set, nd.position ≠ c.position → nd ∈ rest := by
    intro nd hnd hne
    rcases List.mem_cons.mp (hperm.mem_iff.mp hnd) with rfl | h
    · exact absurd rfl hne
    · exact h
  constructor
  · refine ⟨hCore.gstart, hCore.rec_wk, hCore.gpath, ?_, ?_, hCore.cfprop,
      hCore.cfstart, hCore.cfrec⟩
    · intro nd hnd
      exact hCore.ent nd (hperm.mem_iff.mpr (List.mem_cons_of_mem c hnd))
    · intro gv hgv
      obtain ⟨nd, hnd, hpos⟩ := hCore.goalpending gv hgv
      exact ⟨nd, hmemrest nd hnd (by rw [hpos]; exact fun he => hnotgoal he.symm),
        hpos⟩
  · intro p hp gv hgv
    rcases hPend p gv hgv with ⟨nd, hnd, hpos, hf⟩ | hsecond
    · exact Or.inl ⟨nd, hmemrest nd hnd (by rw [hpos]; exact hp), hpos, hf⟩
    · exact Or.inr hsecond

theorem pop_measure (m : Map) (st : AState) (c : Node) (rest : List Node)
    (hpop : heapPop st.open_set = some (c, rest)) :
    measureA m { st with open_set := rest } + 1 = measureA m st := by
  have hperm := heapPop_perm hpop
  have hlen : st.open_set.length = rest.length + 1 := by
    rw [hperm.length_eq]
    rfl
  unfold measureA
  have hgs : gsum m { st with open_set := rest } = gsum m st := rfl
  have hlen2 : ({ st with open_set := rest } : AState).open_set.length = rest.length :=
    rfl
  rw [hgs, hlen2]
  omega

end Ereea

namespace Ereea

theorem loop_step_inv (m : Map) (s t : ℕ × ℕ) (st : AState) (c : Node)
    (rest : List Node) (hpop : heapPop st.open_set = some (c, rest))
    (hInv : AInv m s t st) (hnotgoal : c.position ≠ t) :
    AInv m s t ((get_neighbors m c.position).foldl (relax t c.position)
      { st with open_set := rest }) ∧
    measureA m ((get_neighbors m c.position).foldl (relax t c.position)
      { st with open_set := rest }) < measureA m st := by
  have hcmem : c ∈ st.open_set :=
    (heapPop_perm hpop).mem_iff.mpr (List.mem_cons_self _ _)
  obtain ⟨gc0, hgc0, hgc0le, hfc⟩ := hInv.1.ent c hcmem
  have hweak := pop_weakinv m s t st c rest hpop hInv hnotgoal
  have hg_mid : ({ st with open_set := rest } : AState).g_scores c.position
      = some gc0 := hgc0
  obtain ⟨hInv', hg', hneigh, hmu⟩ := relax_fold m s t c.position gc0
    (get_neighbors m c.position) { st with open_set := rest }
    (fun q hq => hq) hg_mid hweak
  constructor
  · refine ⟨hInv'.1, ?_⟩
    intro p
    by_cases hp : p = c.position
    · intro gv hgv
      right
      intro q hq
      rw [hp] at hgv hq
      have hgveq : gv = gc0 := by
        rw [hg'] at hgv
        exact (Option.some.inj hgv).symm
      obtain ⟨gq, hgqle, hgq⟩ := hneigh q hq
      exact ⟨gq, by omega, hgq⟩
    · exact hInv'.2 p hp
  · have hpm := pop_measure m st c rest hpop
    omega

theorem isPathList_reverse {m : Map} {l : List (ℕ × ℕ)} {s p : ℕ × ℕ}
    (hh : l.head? = some p) (hl : l.getLast? = some s)
    (hc : List.Chain' (fun a b => manhattan_distance a b = 1) l)
    (hw : ∀ r ∈ l, m.is_walkable r.1 r.2 = true) :
    IsPathList m l.reverse s p := by
  refine ⟨?_, ?_, ?_, ?_⟩
  · rw [List.head?_reverse]
    exact hl
  · rw [List.getLast?_reverse]
    exact hh
  · rw [List.chain'_reverse]
    exact hc.imp (fun a b h => show manhattan_distance b a = 1 by
      rw [manhattan_comm]; exact h)
  · intro r hr
    exact hw r (List.mem_reverse.mp hr)

end Ereea

namespace Ereea

theorem reconstructAux_spec (m : Map) (s t : ℕ × ℕ) (st : AState)
    (hCore : AInvCore m s t st) :
    ∀ (fuel : ℕ) (p : ℕ × ℕ) (gp : ℕ), st.g_scores p = some gp → gp ≤ fuel →
      (reconstructAux st.came_from fuel p).head? = some p ∧
      (reconstructAux st.came_from fuel p).getLast? = some s ∧
      List.Chain' (fun a b => manhattan_distance a b = 1)
        (reconstructAux st.came_from fuel p) ∧
      (∀ r ∈ reconstructAux st.came_from fuel p, m.is_walkable r.1 r.2 = true) ∧
      (reconstructAux st.came_from fuel p).length ≤ gp + 1 := by
  intro fuel
  induction fuel with
  | zero =>
    intro p gp hgp hle
    have hcf : st.came_from p = none := by
      rcases hcfv : st.came_from p with _ | pr
      · rfl
      · obtain ⟨a, b, ha, hb, hlt, _⟩ := hCore.cfprop p pr hcfv
        have hae : a = gp := Option.some.inj (ha.symm.trans hgp)
        omega
    have hps : p = s := by
      rcases hCore.cfrec p gp hgp with h | h
      · exact h
      · rw [hcf] at h
        exact absurd h (by simp)
    refine ⟨rfl, ?_, List.chain'_singleton _, ?_, Nat.succ_le_succ (Nat.zero_le gp)⟩
    · rw [hps]
      rfl
    · intro r hr
      have : r = p := List.mem_singleton.mp hr
      rw [this]
      exact hCore.rec_wk _ _ hgp
  | succ fuel ih =>
    intro p gp hgp hle
    rcases hcfv : st.came_from p with _ | pr
    · have hps : p = s := by
        rcases hCore.cfrec p gp hgp with h | h
        · exact h
        · rw [hcfv] at h
          exact absurd h (by simp)
      simp only [reconstructAux, hcfv]
      refine ⟨rfl, ?_, List.chain'_singleton _, ?_, Nat.succ_le_succ (Nat.zero_le gp)⟩
      · rw [hps]
        rfl
      · intro r hr
        have : r = p := List.mem_singleton.mp hr
        rw [this]
        exact hCore.rec_wk _ _ hgp
    · obtain ⟨a, b, ha, hb, hlt, hadj⟩ := hCore.cfprop p pr hcfv
      have hae : a = gp := Option.some.inj (ha.symm.trans hgp)
      rw [hae] at hlt
      obtain ⟨hh', hl', hc', hw', hlen'⟩ := ih pr b hb (by omega)
      simp only [reconstructAux, hcfv]
      have hne' : reconstructAux st.came_from fuel pr ≠ [] := by
        intro he
        rw [he] at hh'
        exact Option.noConfusion hh'
      refine ⟨rfl, ?_, ?_, ?_, ?_⟩
      · rw [← List.singleton_append, List.getLast?_append_of_ne_nil _ hne']
        exact hl'
      · rw [List.chain'_cons']
        refine ⟨?_, hc'⟩
        intro y hy
        rw [hh'] at hy
        have hy' : pr = y := by simpa using hy
        rw [← hy', manhattan_comm]
        exact hadj
      · intro r hr
        rcases List.mem_cons.mp hr with rfl | hr'
        · exact hCore.rec_wk _ _ hgp
        · exact hw' r hr'
      · simp only [List.length_cons]
        omega

theorem reconstruct_path_spec (m : Map) (s t : ℕ × ℕ) (st : AState)
    (hCore : AInvCore m s t st) (fuel : ℕ) (p : ℕ × ℕ) (gp : ℕ)
    (hgp : st.g_scores p = some gp) (hle : gp ≤ fuel) :
    IsPathList m (reconstruct_path st.came_from fuel p) s p ∧
    (reconstruct_path st.came_from fuel p).length ≤ gp + 1 := by
  obtain ⟨hh, hl, hc, hw, hlen⟩ := reconstructAux_spec m s t st hCore fuel p gp hgp hle
  constructor
  · exact isPathList_reverse hh hl hc hw
  · unfold reconstruct_path
    rw [List.length_reverse]
    exact hlen

end Ereea

namespace Ereea

theorem frontier_step (m : Map) (s t : ℕ × ℕ) (st : AState) (hInv : AInv m s t st)
    (π : List (ℕ × ℕ)) (hπ : IsPathList m π s t) :
    (∃ gv, st.g_scores t = some gv ∧ gv + 1 ≤ π.length) ∨
    (∃ nd ∈ st.open_set, nd.f_score + 1 ≤ π.length) := by
  classical
  obtain ⟨hCore, hPend⟩ := hInv
  have hne : π ≠ [] := path_ne_nil hπ
  have hnpos : 1 ≤ π.length := List.length_pos.mpr hne
  have hget : ∀ i (hi : i < π.length), π.getD i s = π.get ⟨i, hi⟩ := by
    intro i hi
    rw [List.getD_eq_getElem?_getD, List.getElem?_eq_getElem hi]
    rfl
  have hu0 : π.getD 0 s = s := by
    rcases π with _ | ⟨a, l⟩
    · exact absurd rfl hne
    · have := hπ.1
      simp only [List.head?] at this
      have ha : a = s := Option.some.inj this
      rw [← ha]
      rfl
  have hlast : π.getLast hne = t := by
    have h1 := List.getLast?_eq_getLast π hne
    rw [hπ.2.1] at h1
    exact (Option.some.inj h1).symm
  have hulast : π.getD (π.length - 1) s = t := by
    rw [hget (π.length - 1) (by omega), ← hlast]
    exact (List.getLast_eq_get π hne).symm ▸ rfl
  have hadj : ∀ i, i + 1 < π.length →
      manhattan_distance (π.getD i s) (π.getD (i + 1) s) = 1 := by
    intro i hi
    rw [hget i (by omega), hget (i + 1) hi]
    have hch := hπ.2.2.1
    rw [List.chain'_iff_get] at hch
    exact hch i (by omega)
  have humem : ∀ i, i < π.length → π.getD i s ∈ π := by
    intro i hi
    rw [hget i hi]
    exact List.get_mem π i hi
  have hdist : ∀ i (hi : i < π.length),
      manhattan_distance (π.getD i s) t + i ≤ π.length - 1 := by
    intro i hi
    rw [hget i hi, ← hlast]
    exact chain_manhattan_last π hπ.2.2.1 hne i hi
  set P : ℕ → Prop := fun i => ∃ gv, gv ≤ i ∧ st.g_scores (π.getD i s) = some gv
    with hP
  have hP0 : P 0 := ⟨0, le_refl 0, by rw [hu0]; exact hCore.gstart⟩
  set j := Nat.findGreatest P (π.length - 1) with hj
  have hPj : P j := Nat.findGreatest_spec (Nat.zero_le _) hP0
  have hjle : j ≤ π.length - 1 := Nat.findGreatest_le _
  obtain ⟨gv, hgvle, hgv⟩ := hPj
  by_cases hjeq : j = π.length - 1
  · left
    refine ⟨gv, ?_, by omega⟩
    rw [← hulast, ← hjeq]
    exact hgv
  · have hjlt : j < π.length - 1 := by omega
    rcases hPend (π.getD j s) gv hgv with ⟨nd, hnd, hpos, hf⟩ | hsecond
    · right
      refine ⟨nd, hnd, ?_⟩
      have hd := hdist j (by omega)
      omega
    · exfalso
      have hmem : π.getD (j + 1) s ∈ get_neighbors m (π.getD j s) := by
        rw [get_neighbors_mem]
        exact ⟨hπ.2.2.2 _ (humem (j + 1) (by omega)), hadj j (by omega)⟩
      obtain ⟨gq, hgqle, hgq⟩ := hsecond (π.getD (j + 1) s) hmem
      have hPj1 : P (j + 1) := ⟨gq, by omega, hgq⟩
      have hgt : Nat.findGreatest P (π.length - 1) < j + 1 := by omega
      have hle2 : j + 1 ≤ π.length - 1 := by omega
      exact Nat.findGreatest_is_greatest hgt hle2 hPj1

end Ereea

namespace Ereea

theorem recorded_le (m : Map) (s t : ℕ × ℕ) (st : AState)
    (hCore : AInvCore m s t st) (p : ℕ × ℕ) (v : ℕ)
    (h : st.g_scores p = some v) :
    v + 1 ≤ m.config.width * m.config.height := by
  obtain ⟨l, hpath, hlen, hnd, _⟩ := hCore.gpath p v h
  have hb : ∀ r ∈ l, r.1 < m.config.width ∧ r.2 < m.config.height :=
    fun r hr => is_walkable_bounds (hpath.2.2.2 r hr)
  have := nodup_inbounds_length_le l hnd _ _ hb
  omega

theorem astarLoop_spec (m : Map) (s t : ℕ × ℕ) :
    ∀ (fuel : ℕ) (st : AState), AInv m s t st → measureA m st < fuel →
      (∀ l, astarLoop m t fuel st = some l →
        IsPathList m l s t ∧ ∀ l', IsPathList m l' s t → l.length ≤ l'.length) ∧
      (astarLoop m t fuel st = none → ¬ ∃ l, IsPathList m l s t) := by
  intro fuel
  induction fuel with
  | zero =>
    intro st _ hmu
    exact absurd hmu (by omega)
  | succ fuel ih =>
    intro st hInv hmu
    rcases hpop : heapPop st.open_set with _ | ⟨c, rest⟩
    · have hopen : st.open_set = [] := heapPop_none hpop
      have hnone : astarLoop m t (fuel + 1) st = none := by
        simp only [astarLoop, hpop]
      constructor
      · intro l hl
        rw [hnone] at hl
        exact Option.noConfusion hl
      · intro _ hex
        obtain ⟨l, hl⟩ := hex
        rcases frontier_step m s t st hInv l hl with ⟨gv, hgv, _⟩ | ⟨nd, hnd, _⟩
        · obtain ⟨nd, hnd, _⟩ := hInv.1.goalpending gv hgv
          rw [hopen] at hnd
          exact absurd hnd (List.not_mem_nil nd)
        · rw [hopen] at hnd
          exact absurd hnd (List.not_mem_nil nd)
    · by_cases hct : c.position = t
      · have heq : astarLoop m t (fuel + 1) st =
            some (reconstruct_path st.came_from
              (m.config.width * m.config.height + 1) c.position) := by
          simp only [astarLoop, hpop, if_pos hct]
        have hcmem : c ∈ st.open_set :=
          (heapPop_perm hpop).mem_iff.mpr (List.mem_cons_self _ _)
        obtain ⟨gt0, hgt0, hgt0le, hfc⟩ := hInv.1.ent c hcmem
        have hbound := recorded_le m s t st hInv.1 c.position gt0 hgt0
        obtain ⟨hpath, hlen⟩ := reconstruct_path_spec m s t st hInv.1
          (m.config.width * m.config.height + 1) c.position gt0 hgt0 (by omega)
        constructor
        · intro l hl
          rw [heq] at hl
          have hleq : reconstruct_path st.came_from
              (m.config.width * m.config.height + 1) c.position = l :=
            Option.some.inj hl
          rw [← hleq]
          have hpath' : IsPathList m (reconstruct_path st.came_from
              (m.config.width * m.config.height + 1) c.position) s t := by
            rw [← hct]
            exact hpath
          refine ⟨hpath', ?_⟩
          intro l' hl'
          rcases frontier_step m s t st hInv l' hl' with ⟨gv, hgv, hgvlen⟩ |
            ⟨nd, hnd, hndlen⟩
          · have hgveq : gv = gt0 := by
              rw [hct] at hgt0
              rw [hgv] at hgt0
              exact Option.some.inj hgt0
            omega
          · have hmin := heapPop_min hpop nd hnd
            have hfc' : c.f_score = c.g_score := by
              rw [hfc, hct, manhattan_self]
              omega
            omega
        · intro hn
          rw [heq] at hn
          exact Option.noConfusion hn
      · have heq : astarLoop m t (fuel + 1) st =
            astarLoop m t fuel ((get_neighbors m c.position).foldl
              (relax t c.position) { st with open_set := rest }) := by
          simp only [astarLoop, hpop, if_neg hct]
        obtain ⟨hInv', hmu'⟩ := loop_step_inv m s t st c rest hpop hInv hct
        have hrec := ih ((get_neighbors m c.position).foldl
          (relax t c.position) { st with open_set := rest }) hInv' (by omega)
        rw [heq]
        exact hrec


/-- The invariant holds for the initial state of `find_path` when the
start cell is walkable. -/
theorem find_path_init_inv (m : Map) (s t : ℕ × ℕ)
    (hs : m.is_walkable s.1 s.2 = true) :
    AInv m s t
      { open_set := [{ position := s, f_score := manhattan_distance s t, g_score := 0 }]
        came_from := fun _ => none
        g_scores := fun p => if p = s then some 0 else none
        f_scores := fun p => if p = s then some (manhattan_distance s t)
          else none } := by
  constructor
  · refine ⟨?_, ?_, ?_, ?_, ?_, ?_, rfl, ?_⟩
    · simp
    · intro p v hv
      by_cases hp : p = s
      · subst hp; exact hs
      · simp only [if_neg hp] at hv
        exact Option.noConfusion hv
    · intro p v hv
      by_cases hp : p = s
      · subst hp
        have hv0 : v = 0 := by
          simp at hv
          omega
        refine ⟨[p], path_singleton hs, by simp [hv0], by simp, ?_⟩
        intro i hi
        simp only [List.length_singleton] at hi
        refine ⟨0, Nat.zero_le i, ?_⟩
        have hi0 : i = 0 := by omega
        subst hi0
        simp
      · simp only [if_neg hp] at hv
        exact Option.noConfusion hv
    · intro nd hnd
      simp only [List.mem_singleton] at hnd
      subst hnd
      exact ⟨0, by simp, Nat.le_refl 0, by simp⟩
    · intro gv hgv
      by_cases hp : t = s
      · exact ⟨_, List.mem_singleton_self _, hp.symm⟩
      · simp only [if_neg hp] at hgv
        exact Option.noConfusion hgv
    · intro p q hpq
      exact Option.noConfusion hpq
    · intro p gp hgp
      by_cases hp : p = s
      · exact Or.inl hp
      · simp only [if_neg hp] at hgp
        exact Option.noConfusion hgp
  · intro p gv hgv
    by_cases hp : p = s
    · subst hp
      exact Or.inl ⟨_, List.mem_singleton_self _, rfl, by simp⟩
    · simp only [if_neg hp] at hgv
      exact Option.noConfusion hgv

/-- The initial state of `find_path` sits below the fuel bound. -/
theorem find_path_init_measure (m : Map) (s t : ℕ × ℕ) :
    measureA m
      { open_set := [{ position := s, f_score := manhattan_distance s t, g_score := 0 }]
        came_from := fun _ => none
        g_scores := fun p => if p = s then some 0 else none
        f_scores := fun p => if p = s then some (manhattan_distance s t)
          else none } <
      5 * (m.config.width * m.config.height) *
        (m.config.width * m.config.height) + 2 := by
  have hsum : gsum m
      { open_set := [{ position := s, f_score := manhattan_distance s t, g_score := 0 }]
        came_from := fun _ => none
        g_scores := fun p => if p = s then some 0 else none
        f_scores := fun p => if p = s then some (manhattan_distance s t)
          else none } ≤
      (m.config.width * m.config.height) *
        (m.config.width * m.config.height) := by
    unfold gsum
    calc ∑ p ∈ Finset.range m.config.width ×ˢ Finset.range m.config.height,
          (((fun p => if p = s then some 0 else none) p).getD
            (m.config.width * m.config.height))
        ≤ ∑ _p ∈ Finset.range m.config.width ×ˢ
            Finset.range m.config.height,
            (m.config.width * m.config.height) := by
          refine Finset.sum_le_sum ?_
          intro p _
          by_cases hp : p = s <;> simp [hp]
      _ = (m.config.width * m.config.height) *
            (m.config.width * m.config.height) := by
          rw [Finset.sum_const, smul_eq_mul, Finset.card_product,
            Finset.card_range, Finset.card_range]
  have h5 : 5 * gsum m
      { open_set := [{ position := s, f_score := manhattan_distance s t, g_score := 0 }]
        came_from := fun _ => none
        g_scores := fun p => if p = s then some 0 else none
        f_scores := fun p => if p = s then some (manhattan_distance s t)
          else none } ≤
      5 * ((m.config.width * m.config.height) *
        (m.config.width * m.config.height)) := Nat.mul_le_mul_left 5 hsum
  unfold measureA
  simp only [List.length_cons, List.length_nil]
  rw [Nat.mul_assoc]
  omega

/-- C2: when the start cell is walkable, `find_path` returns a path
exactly when a walkable 4-connected route from start to goal exists, and
the returned path is itself such a route of minimal length. The original
claim's unconditional form fails: `find_path` never checks the start cell,
so an obstacle start can still yield a "path" (see the counterexample). -/
theorem claim_C2 (m : Map) (s t : ℕ × ℕ)
    (hs : m.is_walkable s.1 s.2 = true) :
    ((find_path m s t).isSome = true ↔ Reachable m s t) ∧
    (find_path m s t = none → ¬ Reachable m s t) ∧
    (∀ l, find_path m s t = some l →
      IsPathList m l s t ∧ ∀ l', IsPathList m l' s t → l.length ≤ l'.length) := by
  have hInv := find_path_init_inv m s t hs
  have hmu := find_path_init_measure m s t
  obtain ⟨hsome, hnone⟩ := astarLoop_spec m s t
    (5 * (m.config.width * m.config.height) *
      (m.config.width * m.config.height) + 2)
    { open_set := [{ position := s, f_score := manhattan_distance s t, g_score := 0 }]
      came_from := fun _ => none
      g_scores := fun p => if p = s then some 0 else none
      f_scores := fun p => if p = s then some (manhattan_distance s t)
        else none } hInv hmu
  have hfp : find_path m s t = astarLoop m t
      (5 * (m.config.width * m.config.height) *
        (m.config.width * m.config.height) + 2)
      { open_set := [{ position := s, f_score := manhattan_distance s t, g_score := 0 }]
        came_from := fun _ => none
        g_scores := fun p => if p = s then some 0 else none
        f_scores := fun p => if p = s then some (manhattan_distance s t)
          else none } := rfl
  refine ⟨⟨?_, ?_⟩, ?_, ?_⟩
  · intro hsm
    rcases hfind : find_path m s t with _ | l
    · rw [hfind] at hsm
      exact Bool.noConfusion hsm
    · rw [hfp] at hfind
      exact ⟨l, (hsome l hfind).1⟩
  · intro hr
    rcases hfind : find_path m s t with _ | l
    · rw [hfp] at hfind
      exact absurd hr (hnone hfind)
    · rfl
  · intro hn hr
    rw [hfp] at hn
    exact hnone hn hr
  · intro l hl
    rw [hfp] at hl
    exact hsome l hl

/-- C2 counterexample: on a 2×1 map whose start cell (0,0) is an Obstacle,
`find_path` still returns a "path" through it, although no walkable route
exists — the original unconditional claim is false. -/
theorem claim_C2_counterexample :
    find_path obstacleStartMap (0, 0) (1, 0) = some [(0, 0), (1, 0)] ∧
    obstacleStartMap.is_walkable 0 0 = false ∧
    ¬ ∃ l, IsPathList obstacleStartMap l (0, 0) (1, 0) := by
  refine ⟨by decide, by decide, ?_⟩
  rintro ⟨l, hhead, _, _, hwalk⟩
  rcases l with _ | ⟨a, rest⟩
  · exact Option.noConfusion hhead
  · have ha : a = ((0, 0) : ℕ × ℕ) := by
      simpa using hhead
    have hmem : ((0, 0) : ℕ × ℕ) ∈ a :: rest := ha ▸ List.mem_cons_self a rest
    have hw := hwalk (0, 0) hmem
    exact absurd hw (by decide)

/-- C2 witness: on the 3×3 ring map, `find_path` from the walkable corner
(0,0) to (2,2) succeeds exactly because a walkable route exists. -/
theorem claim_C2_witness :
    (find_path ringMap (0, 0) (2, 2)).isSome = true ↔
      Reachable ringMap (0, 0) (2, 2) :=
  (claim_C2 ringMap (0, 0) (2, 2) (by decide)).1

end Ereea
